import Mathlib

/-!
Verification of the mercury-cli command generator against its
natural-language specification.  The Lean definitions below are a shallow
embedding of the Go sources (`internal/cligen/*.go`, `internal/mercuryhttp`):
pure Go functions become Lean functions; the pagination loop and the HTTP
retry loop become fuel-indexed recursions that additionally record an event
trace (page fetches, inter-page sleeps) so that temporal statements can be
settled; Go's `url.Values` maps become association lists with the map
operations (`Get`/`Set`/`Add`) translated explicitly; calls into the Go
standard library or into collaborator packages that are out of scope
(HTTP transport, file system, URL parsing) are oracle parameters.
-/

namespace Mercury

/-! ## Naming normalizer (`internal/cligen/naming.go`) -/

/-- Rune categories, from `runeCategory` in naming.go.  Go's `categorize`
returns `catOther` both for non-ASCII letters and for everything else, so the
two branches collapse into a single `other` constructor. -/
inductive RuneCategory where
  | other
  | lower
  | upper
  | digit
deriving DecidableEq, Repr

/-- `categorize` from naming.go: ASCII range tests on the rune's code point
(`'a'` = 97, `'z'` = 122, `'A'` = 65, `'Z'` = 90, `'0'` = 48, `'9'` = 57;
Go compares runes, i.e. code points). -/
def categorize (r : Char) : RuneCategory :=
  if 97 ≤ r.toNat ∧ r.toNat ≤ 122 then .lower
  else if 65 ≤ r.toNat ∧ r.toNat ≤ 90 then .upper
  else if 48 ≤ r.toNat ∧ r.toNat ≤ 57 then .digit
  else .other

/-- `unicode.ToLower` restricted to the values it is applied to in
`kebabCase` (the code only lowercases runes categorized as `catUpper`,
i.e. ASCII `A`..`Z`, where Unicode lowering adds 32). -/
def toLowerGo (r : Char) : Char :=
  if 65 ≤ r.toNat ∧ r.toNat ≤ 90 then Char.ofNat (r.toNat + 32) else r

/-- Go's `unicode.IsSpace` (the cut set of `strings.TrimSpace`): the Unicode
White_Space code points. -/
def goIsSpace (c : Char) : Bool :=
  let n := c.toNat
  (9 ≤ n && n ≤ 13) || n == 32 || n == 0x85 || n == 0xA0 || n == 0x1680 ||
    (0x2000 ≤ n && n ≤ 0x200A) || n == 0x2028 || n == 0x2029 ||
    n == 0x202F || n == 0x205F || n == 0x3000

/-- `strings.TrimSpace`, on the rune list. -/
def trimSpaceList (l : List Char) : List Char :=
  ((l.dropWhile goIsSpace).reverse.dropWhile goIsSpace).reverse

def isAlnumCat : RuneCategory → Bool
  | .lower => true
  | .upper => true
  | .digit => true
  | .other => false

/-- The main rune loop of `kebabCase` (naming.go lines 20-42).  State:
`started` stands for Go's `b.Len() > 0` (a dash is only ever written under
that guard, so the builder is non-empty exactly when some rune has been
written), `prevDash` and `prevCat` are the loop variables of the source. -/
def kebabRec : List Char → Bool → Bool → RuneCategory → List Char
  | [], _, _, _ => []
  | c :: rest, started, prevDash, prevCat =>
    let cat := categorize c
    if isAlnumCat cat then
      -- Insert a dash on lower->upper boundaries (camelCase).
      let needDash := started && !prevDash && cat == .upper &&
        (prevCat == .lower || prevCat == .digit)
      let written := if cat == .upper then toLowerGo c else c
      (if needDash then ['-'] else []) ++ written :: kebabRec rest true false cat
    else
      if started && !prevDash then
        '-' :: kebabRec rest started true cat
      else
        kebabRec rest started prevDash cat

/-- `strings.Trim(out, "-")`. -/
def trimDashes (l : List Char) : List Char :=
  ((l.dropWhile (· == '-')).reverse.dropWhile (· == '-')).reverse

/-- One pass of `strings.ReplaceAll(out, "--", "-")`: left-to-right,
non-overlapping. -/
def replaceDashPairs : List Char → List Char
  | a :: b :: rest =>
    if a == '-' && b == '-' then '-' :: replaceDashPairs rest
    else a :: replaceDashPairs (b :: rest)
  | l => l

/-- `strings.Contains(out, "--")`. -/
def hasDoubleDash : List Char → Bool
  | a :: b :: rest => (a == '-' && b == '-') || hasDoubleDash (b :: rest)
  | _ => false

/-- The `for strings.Contains(out, "--")` loop of `kebabCase`, fuel-indexed:
each executed pass removes at least one character, so `l.length` passes always
reach the fixpoint the Go loop runs to. -/
def collapseLoop : Nat → List Char → List Char
  | 0, l => l
  | n + 1, l => if hasDoubleDash l then collapseLoop n (replaceDashPairs l) else l

/-- Lines 46-49 of naming.go: one unconditional `ReplaceAll` followed by the
`for Contains` loop. -/
def collapseDashes (l : List Char) : List Char :=
  let l1 := replaceDashPairs l
  collapseLoop l1.length l1

/-- `kebabCase` from naming.go. -/
def kebabCase (s : String) : String :=
  let t := trimSpaceList s.toList
  if t.isEmpty then ""
  else String.mk (collapseDashes (trimDashes (kebabRec t false false .other)))

/-! ## Transport retry (`internal/mercuryhttp`, url.go) -/

/-- Go `strings.ToUpper` per character.  For code points below 0x80 it
uppercases `a`..`z`; the only code points at or above 0x80 whose Unicode
uppercase lands in ASCII are U+0131 (ı → I) and U+017F (ſ → S).  Remaining
code points are modelled as fixed: their real images are likewise non-ASCII,
so they can never make a string equal to the ASCII method constants the
transport compares against. -/
def charToUpperGo (c : Char) : Char :=
  if 97 ≤ c.toNat ∧ c.toNat ≤ 122 then Char.ofNat (c.toNat - 32)
  else if c.toNat = 0x131 then 'I'
  else if c.toNat = 0x17F then 'S'
  else c

/-- Go `strings.ToUpper`. -/
def strToUpperGo (s : String) : String := String.mk (s.toList.map charToUpperGo)

/-- `shouldRetry` from the transport (url.go): retry on 429 or 5xx, and only
for inherently idempotent methods unless the caller opted in. -/
def shouldRetry (status : Nat) (method : String) (retryNonIdempotent : Bool) : Bool :=
  if status == 429 || 500 ≤ status then
    if strToUpperGo method == "GET" || strToUpperGo method == "HEAD" ||
        strToUpperGo method == "PUT" || strToUpperGo method == "DELETE" ||
        strToUpperGo method == "OPTIONS" then
      true
    else
      retryNonIdempotent
  else
    false

/-- Outcome of one `http.Client.Do` attempt: a network-level error or a
completed response with a status code. -/
inductive AttemptOutcome where
  | netErr (msg : String)
  | response (status : Nat)

/-- `maxAttempts` from `Client.Do`. -/
def maxAttempts : Nat := 5

/-- The retry loop of `Client.Do` (url.go), with the HTTP transport as an
oracle mapping the 1-based attempt number to its outcome.  Body replay,
logging and the backoff sleep are elided — they do not affect which attempts
are made or what is returned.  Result: the Go function's return value
(`Except` for the `(result, err)` pair) and the index of the last attempt
issued.  The loop body always returns or breaks at `attempt = maxAttempts`,
so fuel `maxAttempts` is never exhausted; the fuel-0 branch mirrors the
unreachable fallthrough `errors.New("request failed")`. -/
def clientDoFrom (outcome : Nat → AttemptOutcome) (method : String) (retryNI : Bool) :
    Nat → Nat → Except String Nat × Nat
  | 0, attempt => (.error "request failed", attempt)
  | fuel + 1, attempt =>
    match outcome attempt with
    | .netErr e => (.error e, attempt)
    | .response st =>
      if shouldRetry st method retryNI && attempt < maxAttempts then
        clientDoFrom outcome method retryNI fuel (attempt + 1)
      else
        (.ok st, attempt)

/-- `Client.Do`'s retry loop entered at attempt 1. -/
def clientDo (outcome : Nat → AttemptOutcome) (method : String) (retryNI : Bool) :
    Except String Nat × Nat :=
  clientDoFrom outcome method retryNI maxAttempts 1

/-! ## `url.Values` and JSON values (pagination support, part of `cligen`) -/

/-- Go's `url.Values` (`map[string][]string`), modelled as an association
list with unique keys maintained by the operations (Go map iteration order is
unspecified; list order is immaterial to every property proved here). -/
abbrev Values := List (String × List String)

/-- `url.Values.Get`: first value for the key, or `""` when absent/empty. -/
def valuesGet (v : Values) (key : String) : String :=
  match v.find? (fun p => p.1 == key) with
  | some (_, x :: _) => x
  | _ => ""

/-- `url.Values.Set`: replace the key's value list by the singleton. -/
def valuesSet (v : Values) (key val : String) : Values :=
  if v.any (fun p => p.1 == key) then
    v.map (fun p => if p.1 == key then (p.1, [val]) else p)
  else
    v ++ [(key, [val])]

/-- `url.Values.Add`: append one value to the key's list. -/
def valuesAdd (v : Values) (key val : String) : Values :=
  if v.any (fun p => p.1 == key) then
    v.map (fun p => if p.1 == key then (p.1, p.2 ++ [val]) else p)
  else
    v ++ [(key, [val])]

/-- `cloneValues` (pagination source): a fresh map whose value slices are
copied element-by-element; content-equal to the input. -/
def cloneValues (v : Values) : Values :=
  v.map (fun p => (p.1, p.2.map (fun s => s)))

/-- JSON values as produced by `encoding/json.Unmarshal` into `any`.
Numbers are modelled as integers: every numeric field the pagination code
inspects is a count or total, and Go's `int(float64)` truncation of a
non-integral total is outside the scope of the claims. -/
inductive JsonVal where
  | null
  | bool (b : Bool)
  | num (n : Int)
  | str (s : String)
  | arr (items : List JsonVal)
  | obj (fields : List (String × JsonVal))

/-- Lookup in an unmarshalled JSON object (`obj[key]` with presence flag). -/
def objGet (fields : List (String × JsonVal)) (key : String) : Option JsonVal :=
  (fields.find? (fun p => p.1 == key)).map (fun p => p.2)

mutual

/-- `fmt.Sprint` on an unmarshalled JSON value (Go prints slices as
space-separated values in brackets and maps as `map[k:v ...]`). -/
def fmtSprint : JsonVal → String
  | .null => "<nil>"
  | .bool true => "true"
  | .bool false => "false"
  | .num n => toString n
  | .str s => s
  | .arr items => "[" ++ fmtSprintList items ++ "]"
  | .obj fields => "map[" ++ fmtSprintFields fields ++ "]"

def fmtSprintList : List JsonVal → String
  | [] => ""
  | [x] => fmtSprint x
  | x :: y :: xs => fmtSprint x ++ " " ++ fmtSprintList (y :: xs)

def fmtSprintFields : List (String × JsonVal) → String
  | [] => ""
  | [p] => p.1 ++ ":" ++ fmtSprint p.2
  | p :: q :: xs => p.1 ++ ":" ++ fmtSprint p.2 ++ " " ++ fmtSprintFields (q :: xs)

end

/-- Decimal digit run to a number (`none` on empty input or a non-digit). -/
def parseDigits : List Char → Option Nat
  | [] => none
  | cs => cs.foldl (fun acc c =>
      acc.bind (fun n =>
        if 48 ≤ c.toNat ∧ c.toNat ≤ 57 then some (n * 10 + (c.toNat - 48)) else none))
      (some 0)

/-- `strconv.Atoi`: an optional sign followed by decimal digits (overflow is
out of scope — the offsets involved are small). -/
def goAtoi (s : String) : Option Int :=
  match s.toList with
  | '-' :: rest => (parseDigits rest).map (fun n => -(n : Int))
  | '+' :: rest => (parseDigits rest).map (fun n => (n : Int))
  | l => (parseDigits l).map (fun n => (n : Int))

/-- `stringField`: `""` for an absent or null field, the string itself for a
string, `fmt.Sprint` otherwise. -/
def stringField (fields : List (String × JsonVal)) (field : String) : String :=
  match objGet fields field with
  | none => ""
  | some .null => ""
  | some v => fmtSprint v

/-- `cursorNextToken`: `obj["page"]["nextPage"]` as a string, `""` when
`page` is absent or not an object. -/
def cursorNextToken (fields : List (String × JsonVal)) : String :=
  match objGet fields "page" with
  | some (.obj pageFields) => stringField pageFields "nextPage"
  | _ => ""

/-- `intFromAny`: numeric coercion used for the offset-mode `total` field. -/
def intFromAny : Option JsonVal → Int
  | some (.num n) => n
  | some (.str s) =>
    match goAtoi s with
    | some i => i
    | none => 0
  | _ => 0

/-! ## Pagination plan and `fetchAll` -/

/-- `paginationMode`. -/
inductive PaginationMode where
  | none
  | cursor
  | pageToken
  | offset
deriving DecidableEq, Repr

/-- `paginationPlan`. -/
structure PaginationPlan where
  mode : PaginationMode
  queryParam : String
  itemField : String
  nextTokenField : String
  totalField : String
deriving DecidableEq, Repr

/-- `paginationResult`. -/
structure PaginationResult where
  Items : List JsonVal
  LastObject : Option (List (String × JsonVal))
  FirstTotal : Option JsonVal
  LastStatus : Nat
  LastHeaders : List (String × List String)

/-- `mercuryhttp.Result`, with the body carried as the outcome of the
`json.Unmarshal` library call (`none` = the bytes are not valid JSON). -/
structure HttpResult where
  Status : Nat
  Headers : List (String × List String)
  Body : Option JsonVal

/-- The errors `fetchAll` can return, one constructor per `return`-with-error
site, so that the page-cap error is distinguishable from per-page failures. -/
inductive FetchErr where
  | missingPlan
  | pageErr (e : String)
  | parseJSON
  | notObject
  | missingField (f : String)
  | notArray (f : String)
  | exceeded (maxPages : Int)
deriving DecidableEq, Repr

/-- Observable events of one `fetchAll` run: a page fetch (with the query it
was issued with) or an inter-page sleep. -/
inductive FetchEvent where
  | call (q : Values)
  | sleep
deriving DecidableEq, Repr

/-- The `for page := 1; page <= maxPages; page++` loop of `fetchAll`,
fuel-indexed by the remaining page budget; reaching fuel 0 is exactly the
loop running off its bound, which returns the "pagination exceeded" error
(Go also returns the partial result alongside that error; the caller in
`buildOperationCmd` discards it when the error is non-nil, which is what the
`Except` models).  The second component is the event trace. -/
def fetchAllLoop (plan : PaginationPlan) (doF : Values → Except String HttpResult)
    (sleepMs : Nat) (maxPages : Int) :
    Nat → Values → Int → PaginationResult →
      Except FetchErr PaginationResult × List FetchEvent
  | 0, _, _, _ => (.error (.exceeded maxPages), [])
  | fuel + 1, q, offset, res =>
    let q1 := if plan.mode = .offset then valuesSet q plan.queryParam (toString offset) else q
    match doF q1 with
    | .error e => (.error (.pageErr e), [.call q1])
    | .ok r =>
      let res1 := { res with LastStatus := r.Status, LastHeaders := r.Headers }
      match r.Body with
      | none => (.error .parseJSON, [.call q1])
      | some (.obj obj) =>
        match objGet obj plan.itemField with
        | none => (.error (.missingField plan.itemField), [.call q1])
        | some (.arr items) =>
          let res2 := { res1 with Items := res1.Items ++ items, LastObject := some obj }
          match plan.mode with
          | .cursor =>
            let next := cursorNextToken obj
            if next = "" then (.ok res2, [.call q1])
            else
              let q2 := valuesSet q1 plan.queryParam next
              let rest := fetchAllLoop plan doF sleepMs maxPages fuel q2 offset res2
              (rest.1, .call q1 :: ((if sleepMs > 0 then [.sleep] else []) ++ rest.2))
          | .pageToken =>
            let next := stringField obj plan.nextTokenField
            if next = "" then (.ok res2, [.call q1])
            else
              let q2 := valuesSet q1 plan.queryParam next
              let rest := fetchAllLoop plan doF sleepMs maxPages fuel q2 offset res2
              (rest.1, .call q1 :: ((if sleepMs > 0 then [.sleep] else []) ++ rest.2))
          | .offset =>
            let res3 :=
              if res2.FirstTotal.isNone then { res2 with FirstTotal := objGet obj plan.totalField }
              else res2
            let offset2 := offset + (items.length : Int)
            let total := intFromAny (objGet obj plan.totalField)
            if total > 0 ∧ offset2 ≥ total then (.ok res3, [.call q1])
            else if items.length = 0 then (.ok res3, [.call q1])
            else
              let rest := fetchAllLoop plan doF sleepMs maxPages fuel q1 offset2 res3
              (rest.1, .call q1 :: ((if sleepMs > 0 then [.sleep] else []) ++ rest.2))
          | .none => (.ok res2, [.call q1])
        | some _ => (.error (.notArray plan.itemField), [.call q1])
      | some _ => (.error .notObject, [.call q1])

/-- The `if maxPages <= 0 { maxPages = 1000 }` defaulting of `fetchAll`. -/
def effMaxPages (maxPages : Int) : Int := if maxPages ≤ 0 then 1000 else maxPages

/-- The initial running offset of `fetchAll`: the non-negative integer parse
of the caller-supplied offset parameter, defaulting to 0. -/
def initialOffset (plan : PaginationPlan) (q : Values) : Int :=
  if plan.mode = .offset then
    let v := valuesGet q plan.queryParam
    if v ≠ "" then
      match goAtoi v with
      | some i => if i ≥ 0 then i else 0
      | none => 0
    else 0
  else 0

/-- `&paginationResult{}` (Go zero value). -/
def emptyPagResult : PaginationResult :=
  { Items := [], LastObject := none, FirstTotal := none, LastStatus := 0, LastHeaders := [] }

/-- `fetchAll` (pagination source): plan/nil checks, `maxPages` defaulting,
deep copy of the caller's query, initial-offset parsing, then the loop. -/
def fetchAll (plan : Option PaginationPlan) (initialQuery : Option Values)
    (maxPages : Int) (sleepMs : Nat) (doF : Values → Except String HttpResult) :
    Except FetchErr PaginationResult × List FetchEvent :=
  match plan with
  | none => (.error .missingPlan, [])
  | some plan =>
    if plan.mode = .none then (.error .missingPlan, [])
    else
      let q := cloneValues (initialQuery.getD [])
      fetchAllLoop plan doF sleepMs (effMaxPages maxPages) (effMaxPages maxPages).toNat q
        (initialOffset plan q) emptyPagResult

/-- Number of page fetches in an event trace. -/
def countCalls (evs : List FetchEvent) : Nat :=
  evs.countP (fun e => match e with | .call _ => true | .sleep => false)

/-- Two adjacent sleep events (used to state that sleeps only separate
pages). -/
def twoSleeps : List FetchEvent → Bool
  | .sleep :: .sleep :: _ => true
  | _ :: rest => twoSleeps rest
  | [] => false

/-- A fetched page that triggers no stop condition of its plan's mode, so
the loop must continue (spec-side predicate for the page-cap claim). -/
def pageLive (plan : PaginationPlan) (obj : List (String × JsonVal))
    (items : List JsonVal) (offset : Int) : Prop :=
  match plan.mode with
  | .cursor => cursorNextToken obj ≠ ""
  | .pageToken => stringField obj plan.nextTokenField ≠ ""
  | .offset =>
    ¬(0 < intFromAny (objGet obj plan.totalField) ∧
        offset + (items.length : Int) ≥ intFromAny (objGet obj plan.totalField)) ∧
      items ≠ []
  | .none => False

/-! ### Concrete pagination fixtures (the spec's acceptance scenarios) -/

/-- Offset-mode plan as detected for `transactions`/`total` responses. -/
def offsetPlan : PaginationPlan :=
  { mode := .offset, queryParam := "offset", itemField := "transactions",
    nextTokenField := "", totalField := "total" }

def offsetPage1 : HttpResult :=
  { Status := 200, Headers := [],
    Body := some (.obj [("transactions", .arr [.str "a", .str "b"]), ("total", .num 3)]) }

def offsetPage2 : HttpResult :=
  { Status := 200, Headers := [],
    Body := some (.obj [("transactions", .arr [.str "c"]), ("total", .num 3)]) }

/-- Offset scenario server: `total = 3`, two items at offset 0, one at
offset 2. -/
def doOffsetPages : Values → Except String HttpResult := fun q =>
  if valuesGet q "offset" = "0" then .ok offsetPage1
  else if valuesGet q "offset" = "2" then .ok offsetPage2
  else .error "unexpected offset"

/-- A page with one item and `total = 0` (inconsistent total). -/
def offsetPageTotalZero : HttpResult :=
  { Status := 200, Headers := [],
    Body := some (.obj [("transactions", .arr [.str "x"]), ("total", .num 0)]) }

/-- Cursor-mode plan as detected for a `page.nextPage` response. -/
def cursorPlan : PaginationPlan :=
  { mode := .cursor, queryParam := "start_after", itemField := "accounts",
    nextTokenField := "page.nextPage", totalField := "" }

def cursorPage1 : HttpResult :=
  { Status := 200, Headers := [],
    Body := some (.obj [("accounts", .arr [.str "a1", .str "a2"]),
      ("page", .obj [("nextPage", .str "t1")])]) }

def cursorPage2 : HttpResult :=
  { Status := 200, Headers := [],
    Body := some (.obj [("accounts", .arr [.str "a3"]),
      ("page", .obj [("nextPage", .null)])]) }

/-- Cursor scenario server: two pages, second one final. -/
def doCursorPages : Values → Except String HttpResult := fun q =>
  if valuesGet q "start_after" = "" then .ok cursorPage1
  else if valuesGet q "start_after" = "t1" then .ok cursorPage2
  else .error "unexpected cursor"

/-- A cursor page that always carries a next token (never stops). -/
def cursorPageForever : HttpResult :=
  { Status := 200, Headers := [],
    Body := some (.obj [("accounts", .arr [.str "a"]),
      ("page", .obj [("nextPage", .str "t")])]) }

/-! ### Heap model of the mutable query map (frame claim)

Go's `url.Values` is a reference type: `q.Set` mutates the map all holders
of the reference see.  To state that `fetchAll` never mutates its caller's
map, the map variables are modelled as indices into an explicit heap of
`Values` cells and every `Set` of the source becomes a store through the
callee's own reference. -/

/-- A heap of `url.Values` cells; a Go map variable is an index into it. -/
abbrev VHeap := List Values

/-- Dereference a map variable (an unallocated index reads as the empty
map; the runs proved about never do this). -/
def heapGet (h : VHeap) (r : Nat) : Values := h.getD r []

/-- Store through a map variable (a Go `q.Set`, after the new contents are
computed). -/
def heapSet (h : VHeap) (r : Nat) (v : Values) : VHeap := List.set h r v

/-- Allocate a fresh map cell (`url.Values{}` literals and the clone). -/
def heapAlloc (h : VHeap) (v : Values) : VHeap × Nat := (h ++ [v], h.length)

/-- The `fetchAll` loop with the query map held in a heap cell: identical
to `fetchAllLoop` except that every `q.Set` of the source is a store
through the reference `q` and the request is issued with the cell's
current contents.  Returns the result-and-trace pair together with the
final heap. -/
def fetchAllLoopRef (plan : PaginationPlan) (doF : Values → Except String HttpResult)
    (sleepMs : Nat) (maxPages : Int) :
    Nat → VHeap → Nat → Int → PaginationResult →
      (Except FetchErr PaginationResult × List FetchEvent) × VHeap
  | 0, h, _, _, _ => ((.error (.exceeded maxPages), []), h)
  | fuel + 1, h, q, offset, res =>
    let h1 := if plan.mode = .offset then
        heapSet h q (valuesSet (heapGet h q) plan.queryParam (toString offset))
      else h
    let qv := heapGet h1 q
    match doF qv with
    | .error e => ((.error (.pageErr e), [.call qv]), h1)
    | .ok r =>
      let res1 := { res with LastStatus := r.Status, LastHeaders := r.Headers }
      match r.Body with
      | none => ((.error .parseJSON, [.call qv]), h1)
      | some (.obj obj) =>
        match objGet obj plan.itemField with
        | none => ((.error (.missingField plan.itemField), [.call qv]), h1)
        | some (.arr items) =>
          let res2 := { res1 with Items := res1.Items ++ items, LastObject := some obj }
          match plan.mode with
          | .cursor =>
            let next := cursorNextToken obj
            if next = "" then ((.ok res2, [.call qv]), h1)
            else
              let h2 := heapSet h1 q (valuesSet (heapGet h1 q) plan.queryParam next)
              let rest := fetchAllLoopRef plan doF sleepMs maxPages fuel h2 q offset res2
              ((rest.1.1, .call qv :: ((if sleepMs > 0 then [.sleep] else []) ++ rest.1.2)),
                rest.2)
          | .pageToken =>
            let next := stringField obj plan.nextTokenField
            if next = "" then ((.ok res2, [.call qv]), h1)
            else
              let h2 := heapSet h1 q (valuesSet (heapGet h1 q) plan.queryParam next)
              let rest := fetchAllLoopRef plan doF sleepMs maxPages fuel h2 q offset res2
              ((rest.1.1, .call qv :: ((if sleepMs > 0 then [.sleep] else []) ++ rest.1.2)),
                rest.2)
          | .offset =>
            let res3 :=
              if res2.FirstTotal.isNone then { res2 with FirstTotal := objGet obj plan.totalField }
              else res2
            let offset2 := offset + (items.length : Int)
            let total := intFromAny (objGet obj plan.totalField)
            if total > 0 ∧ offset2 ≥ total then ((.ok res3, [.call qv]), h1)
            else if items.length = 0 then ((.ok res3, [.call qv]), h1)
            else
              let rest := fetchAllLoopRef plan doF sleepMs maxPages fuel h1 q offset2 res3
              ((rest.1.1, .call qv :: ((if sleepMs > 0 then [.sleep] else []) ++ rest.1.2)),
                rest.2)
          | .none => ((.ok res2, [.call qv]), h1)
        | some _ => ((.error (.notArray plan.itemField), [.call qv]), h1)
      | some _ => ((.error .notObject, [.call qv]), h1)

/-- `fetchAll` on the heap model: the caller's map is a heap cell (Go `nil`
is `none`); the defaulted empty map and the deep copy are fresh cells, and
the loop runs on the copy's reference. -/
def fetchAllRef (plan : Option PaginationPlan) (h0 : VHeap) (initialQuery : Option Nat)
    (maxPages : Int) (sleepMs : Nat) (doF : Values → Except String HttpResult) :
    (Except FetchErr PaginationResult × List FetchEvent) × VHeap :=
  match plan with
  | none => ((.error .missingPlan, []), h0)
  | some plan =>
    if plan.mode = .none then ((.error .missingPlan, []), h0)
    else
      let alloc1 := match initialQuery with
        | some r => (h0, r)
        | none => heapAlloc h0 []
      let alloc2 := heapAlloc alloc1.1 (cloneValues (heapGet alloc1.1 alloc1.2))
      fetchAllLoopRef plan doF sleepMs (effMaxPages maxPages) (effMaxPages maxPages).toNat
        alloc2.1 alloc2.2 (initialOffset plan (heapGet alloc2.1 alloc2.2)) emptyPagResult

/-! ## Parameter binding (`cligen` params source) -/

/-- All values stored under a key (`m[k]` on the Go map). -/
def valuesGetAll (v : Values) (key : String) : List String :=
  match v.find? (fun p => p.1 == key) with
  | some p => p.2
  | none => []

/-- `openapi.Parameter`, restricted to the fields the binder reads. -/
structure Parameter where
  Name : String
  In : String
  Required : Bool
  Ref : String
deriving DecidableEq, Repr

/-- `paramKind`. -/
inductive ParamKind where
  | string
  | int
  | bool
  | float
  | stringArray
deriving DecidableEq, Repr

/-- `paramBinding`: the flag names (canonical name first, then the raw-name
alias when it differs) and the backing flag values.  The Go struct holds one
typed pointer per kind; `fStr` carries the float flag already rendered by
`strconv.FormatFloat(*b.f, 'f', -1, 64)` — floating-point values themselves
are outside the embedding, and only their rendered string ever leaves the
binding. -/
structure ParamBinding where
  param : Parameter
  flagNames : List String
  kind : ParamKind
  s : String
  i : Int
  b : Bool
  fStr : String
  sa : List String
deriving DecidableEq, Repr

/-- The flag-name list `bindParams` registers: the kebab-case primary plus
the raw declared name as a hidden alias when the canonical form differs. -/
def mkFlagNames (name : String) : List String :=
  let primary := kebabCase name
  if primary ≠ name then [primary, name] else [primary]

/-- `paramBinding.changed`: true iff any of the binding's flags was set by
the caller (`changed` is `cmd.Flags().Changed`). -/
def bindingChanged (b : ParamBinding) (changed : String → Bool) : Bool :=
  b.flagNames.any changed

/-- `paramBinding.valuesAsStrings`. -/
def valuesAsStrings (b : ParamBinding) : List String :=
  match b.kind with
  | .string => [b.s]
  | .int => [toString b.i]
  | .bool => [if b.b then "true" else "false"]
  | .float => [b.fStr]
  | .stringArray => b.sa

/-- `paramBinding.addToQuery`: contribute nothing unless the binding changed,
else `values.Add` each rendered value under the declared parameter name. -/
def addToQuery (b : ParamBinding) (changed : String → Bool) (values : Values) : Values :=
  if !bindingChanged b changed then values
  else (valuesAsStrings b).foldl (fun acc v => valuesAdd acc b.param.Name v) values

/-- `paramBinding.addToHeaders`: same discipline on the header map
(`h[name] = append(h[name], v)`). -/
def addToHeaders (b : ParamBinding) (changed : String → Bool) (h : Values) : Values :=
  if !bindingChanged b changed then h
  else (valuesAsStrings b).foldl (fun acc v => valuesAdd acc b.param.Name v) h

/-- A concrete string binding for the `start_after` query parameter
(fixture for witnesses). -/
def bindFix : ParamBinding :=
  { param := { Name := "start_after", In := "query", Required := false, Ref := "" },
    flagNames := mkFlagNames "start_after", kind := .string,
    s := "abc", i := 0, b := false, fStr := "0", sa := [] }

/-- A repeated-string binding left at its registration state: cobra
registers the flag with default `nil`, the array zero value (fixture for
the unset direction of the contribution claim). -/
def bindFixArr : ParamBinding :=
  { param := { Name := "tags", In := "query", Required := false, Ref := "" },
    flagNames := mkFlagNames "tags", kind := .stringArray,
    s := "", i := 0, b := false, fStr := "0", sa := [] }

/-! ## Body negotiation (`internal/cligen/body.go`) -/

/-- `strings.HasPrefix`. -/
def goHasPrefix (s pre : String) : Bool := pre.toList.isPrefixOf s.toList

/-- `strings.TrimSpace` on a string. -/
def strTrimSpace (s : String) : String := String.mk (trimSpaceList s.toList)

/-- `strings.TrimPrefix(s, "@")`. -/
def trimAtSign (s : String) : String :=
  if goHasPrefix s "@" then String.mk (s.toList.drop 1) else s

/-- `strings.Cut(entry, "=")` specialised to the `=` separator used for
`--form`. -/
def cutEqList : List Char → Option (List Char × List Char)
  | [] => none
  | c :: rest =>
    if c == '=' then some ([], rest)
    else (cutEqList rest).map (fun p => (c :: p.1, p.2))

def cutEq (s : String) : String × String × Bool :=
  match cutEqList s.toList with
  | some (k, v) => (String.mk k, String.mk v, true)
  | none => (s, "", false)

/-- `filepath.Base` (slash-separated paths). -/
def goFilepathBase (path : String) : String :=
  if path = "" then "."
  else
    let trimmed := (path.toList.reverse.dropWhile (fun c => c == '/')).reverse
    if trimmed = [] then "/"
    else String.mk ((trimmed.reverse.takeWhile (fun c => !(c == '/'))).reverse)

/-- `bodyFlags` plus the `cmd.Flags().Changed` state of its three flags. -/
structure BodyFlags where
  required : Bool
  supportedContentTypes : List String
  data : String
  dataChanged : Bool
  contentType : String
  ctChanged : Bool
  form : List String
  formChanged : Bool
deriving DecidableEq, Repr

/-- The errors `bodyFlags.build` can return, one constructor per
`return`-with-error site. -/
inductive BodyErr where
  | emptyContentType
  | unsupportedContentType (ct : String)
  | bodyRequired
  | formNotSupported
  | noContentType
  | jsonNeedsData
  | formEncodedNeedsForm
  | multipartNeedsForm
  | invalidFormEntry (entry : String)
  | fileUploadUrlencoded (entry : String)
  | readFileErr (path : String)
deriving DecidableEq, Repr

/-- One part of a multipart body: a plain field, or a file attachment
carrying the file's contents and its base name. -/
structure FormPart where
  field : String
  value : String
  filename : Option String
deriving DecidableEq, Repr

/-- The produced request body, with the final byte-serialisation of the
standard library (JSON passthrough bytes, `url.Values.Encode`,
`multipart.Writer`) left structural. -/
inductive BodyOut where
  | empty
  | jsonRaw (bytes : String)
  | formURLEncoded (vals : Values)
  | multipart (parts : List FormPart)
deriving DecidableEq, Repr

/-- `supportsContentType`: exact match, or a loosened match for
`application/json` variants where the declared type extends the requested
one by a suffix (e.g. a charset parameter). -/
def supportsContentType (supported : List String) (ct : String) : Bool :=
  supported.any (fun s =>
    s == ct ||
      (goHasPrefix s ct && goHasPrefix s "application/json" && goHasPrefix ct "application/json"))

/-- `defaultDataContentType`: first declared JSON type, else the first
declared type, else empty. -/
def defaultDataContentType (supported : List String) : String :=
  match supported.find? (fun ct => goHasPrefix ct "application/json") with
  | some ct => ct
  | none =>
    match supported with
    | ct :: _ => ct
    | [] => ""

/-- `defaultFormContentType`: first declared multipart type, else the first
declared URL-encoded type, else empty. -/
def defaultFormContentType (supported : List String) : String :=
  match supported.find? (fun ct => goHasPrefix ct "multipart/form-data") with
  | some ct => ct
  | none =>
    match supported.find? (fun ct => goHasPrefix ct "application/x-www-form-urlencoded") with
    | some ct => ct
    | none => ""

/-- `readDataArg` with the file system and standard input as oracles
(`fs path = none` means the file is unreadable). -/
def readDataArg (fs : String → Option String) (stdin : String) (arg : String) :
    Except BodyErr String :=
  let arg := strTrimSpace arg
  if arg = "-" then .ok stdin
  else if goHasPrefix arg "@" then
    match fs (trimAtSign arg) with
    | some content => .ok content
    | none => .error (.readFileErr (trimAtSign arg))
  else .ok arg

/-- The URL-encoded `--form` loop of `build`: `key=value` pairs added to a
`url.Values`, file uploads rejected. -/
def formEncodeVals (entries : List String) (acc : Values) : Except BodyErr Values :=
  match entries with
  | [] => .ok acc
  | entry :: rest =>
    let (k, v, ok) := cutEq entry
    if !ok || strTrimSpace k == "" then .error (.invalidFormEntry entry)
    else if goHasPrefix v "@" then .error (.fileUploadUrlencoded entry)
    else formEncodeVals rest (valuesAdd acc k v)

/-- The multipart `--form` loop of `build`: field parts, and file parts read
through the file-system oracle and named after the path's base name. -/
def multipartParts (fs : String → Option String) (entries : List String)
    (acc : List FormPart) : Except BodyErr (List FormPart) :=
  match entries with
  | [] => .ok acc
  | entry :: rest =>
    let (k, v, ok) := cutEq entry
    if !ok || strTrimSpace k == "" then .error (.invalidFormEntry entry)
    else if goHasPrefix v "@" then
      match fs (trimAtSign v) with
      | none => .error (.readFileErr (trimAtSign v))
      | some content =>
        multipartParts fs rest
          (acc ++ [{ field := k, value := content, filename := some (goFilepathBase (trimAtSign v)) }])
    else multipartParts fs rest (acc ++ [{ field := k, value := v, filename := none }])

/-- The encoding switch at the end of `build` (`boundary` stands for the
random boundary `multipart.Writer` generates). -/
def encodeBody (b : BodyFlags) (fs : String → Option String) (stdin : String)
    (boundary : String) (ct2 : String) (hasForm hasData : Bool) :
    Except BodyErr (BodyOut × String) :=
  if goHasPrefix ct2 "application/json" then
    if !hasData then .error .jsonNeedsData
    else
      match readDataArg fs stdin b.data with
      | .error e => .error e
      | .ok raw => .ok (.jsonRaw raw, ct2)
  else if goHasPrefix ct2 "application/x-www-form-urlencoded" then
    if !hasForm then .error .formEncodedNeedsForm
    else
      match formEncodeVals b.form [] with
      | .error e => .error e
      | .ok vals => .ok (.formURLEncoded vals, "application/x-www-form-urlencoded")
  else if goHasPrefix ct2 "multipart/form-data" then
    if !hasForm then .error .multipartNeedsForm
    else
      match multipartParts fs b.form [] with
      | .error e => .error e
      | .ok parts => .ok (.multipart parts, "multipart/form-data; boundary=" ++ boundary)
  else .error (.unsupportedContentType ct2)

/-- `build` after the `--content-type` override step: form/data presence
checks, the required-body check, content-type defaulting, then encoding. -/
def buildBodyRest (b : BodyFlags) (fs : String → Option String) (stdin : String)
    (boundary : String) (selectedCT : String) : Except BodyErr (BodyOut × String) :=
  let hasForm := b.formChanged && !b.form.isEmpty
  let hasData := b.dataChanged && !(strTrimSpace b.data == "")
  if b.required && !hasForm && !hasData then .error .bodyRequired
  else if !hasForm && !hasData then .ok (.empty, "")
  else
    match (if hasForm then
        (if selectedCT = "" then
          (if defaultFormContentType b.supportedContentTypes = "" then
            Except.error BodyErr.formNotSupported
          else .ok (defaultFormContentType b.supportedContentTypes))
        else .ok selectedCT)
      else .ok selectedCT : Except BodyErr String) with
    | .error e => .error e
    | .ok ct1 =>
      match (if hasData then
          (if ct1 = "" then
            (if defaultDataContentType b.supportedContentTypes = "" then
              Except.error BodyErr.noContentType
            else .ok (defaultDataContentType b.supportedContentTypes))
          else .ok ct1)
        else .ok ct1 : Except BodyErr String) with
      | .error e => .error e
      | .ok ct2 => encodeBody b fs stdin boundary ct2 hasForm hasData

/-- `bodyFlags.build` (body.go): the `--content-type` override is validated
against the declared content types before anything else. -/
def buildBody (b : BodyFlags) (fs : String → Option String) (stdin : String)
    (boundary : String) : Except BodyErr (BodyOut × String) :=
  if b.ctChanged then
    let selectedCT := strTrimSpace b.contentType
    if selectedCT = "" then .error .emptyContentType
    else if supportsContentType b.supportedContentTypes selectedCT = false then
      .error (.unsupportedContentType selectedCT)
    else buildBodyRest b fs stdin boundary selectedCT
  else buildBodyRest b fs stdin boundary ""

/-- Fixture: a required-JSON operation given a charset-suffixed override. -/
def bodyFixJsonCharset : BodyFlags :=
  { required := true, supportedContentTypes := ["application/json"],
    data := "\x7b\x7d", dataChanged := true,
    contentType := "application/json;charset=utf-8", ctChanged := true,
    form := [], formChanged := false }

/-! ## Command generation (`internal/cligen/openapi_cmds.go`) -/

/-- The data `AddOpenAPICommands` and `buildOperationCmd` read from one
collected operation: its method, path, identifier and tags, plus the `$ref`
fields whose presence makes `buildOperationCmd` fail (`paramRefs` lists the
`Ref` field of every declared parameter, `""` when absent; `requestBodyRef`
is `none` for no body, `some r` for a body with `Ref = r`). -/
structure RawOp where
  method : String
  path : String
  operationId : String
  tags : List String
  paramRefs : List String
  requestBodyRef : Option String
deriving DecidableEq, Repr

/-- The generation-time errors of `AddOpenAPICommands`. -/
inductive GenErr where
  | missingOperationId (doc method path : String)
  | duplicateCommand (cmdName groupName method path prevMethod prevPath : String)
  | unsupportedParamRef (r : String)
  | unsupportedBodyRef (r : String)
deriving DecidableEq, Repr

/-- `genOp`: the operation with its derived (canonicalized) group and
command names. -/
structure GenOp where
  method : String
  path : String
  op : RawOp
  groupName : String
  cmdName : String
deriving DecidableEq, Repr

/-- Lines 64-82 of openapi_cmds.go: group from the first non-blank tag
(default "misc", kebab-cased, falling back to "misc" when the kebab form is
empty), command name from the kebab-cased operation id. -/
def mkGenOp (op : RawOp) : GenOp :=
  let tag := match op.tags with
    | t :: _ => if strTrimSpace t ≠ "" then t else "misc"
    | [] => "misc"
  let groupName0 := kebabCase tag
  { method := op.method, path := op.path, op := op,
    groupName := if groupName0 = "" then "misc" else groupName0,
    cmdName := kebabCase op.operationId }

/-- Lexicographic code-point comparison of strings: Go compares strings
byte-wise, and UTF-8 byte order coincides with code-point order. -/
def strLtList : List Char → List Char → Bool
  | [], [] => false
  | [], _ :: _ => true
  | _ :: _, [] => false
  | a :: as, b :: bs =>
    if a.toNat < b.toNat then true
    else if b.toNat < a.toNat then false
    else strLtList as bs

def goStrLt (a b : String) : Bool := strLtList a.toList b.toList

/-- The strict sort key of lines 87-98: lexicographic on (group, command
name, method, path). -/
def genOpLess (a b : GenOp) : Bool :=
  if a.groupName ≠ b.groupName then goStrLt a.groupName b.groupName
  else if a.cmdName ≠ b.cmdName then goStrLt a.cmdName b.cmdName
  else if a.method ≠ b.method then goStrLt a.method b.method
  else goStrLt a.path b.path

/-- The non-strict relation the stable sort uses (`a` may precede `b` iff
`b` is not strictly smaller, exactly how `sort.SliceStable` consumes its
`less` function). -/
def genOpLeP (a b : GenOp) : Prop := (!genOpLess b a) = true

instance : DecidableRel genOpLeP := fun a b => inferInstanceAs (Decidable (_ = true))

/-- The first error `buildOperationCmd` hits for an operation, if any: an
unsupported parameter `$ref` (checked in `bindParams` before the location
filter) or an unsupported request-body `$ref`.  Everything else in
`buildOperationCmd` (flag binding, body flags, pagination detection) cannot
fail. -/
def opBuildError (op : RawOp) : Option GenErr :=
  match op.paramRefs.find? (fun r => !(r == "")) with
  | some r => some (.unsupportedParamRef r)
  | none =>
    match op.requestBodyRef with
    | some r => if r ≠ "" then some (.unsupportedBodyRef r) else none
    | none => none

/-- The per-group seen set (`seen : group -> cmdName -> genOp`), as the list
of inserted `(group, cmdName, genOp)` triples. -/
def seenLookup (seen : List (String × String × GenOp)) (g c : String) : Option GenOp :=
  (seen.find? (fun e => e.1 == g && e.2.1 == c)).map (fun e => e.2.2)

/-- The registration loop (lines 100-131): duplicate check against the
per-group seen set, then the command build, for each operation in sorted
order. -/
def registerLoop : List GenOp → List (String × String × GenOp) → Except GenErr Unit
  | [], _ => .ok ()
  | g :: rest, seen =>
    match seenLookup seen g.groupName g.cmdName with
    | some prev =>
      .error (.duplicateCommand g.cmdName g.groupName g.method g.path prev.method prev.path)
    | none =>
      match opBuildError g.op with
      | some e => .error e
      | none => registerLoop rest (seen ++ [(g.groupName, g.cmdName, g)])

/-- `AddOpenAPICommands` for one document whose operations are already
collected in iteration order (paths sorted, methods sorted within a path):
the missing-operationId check of the collection phase, then the stable sort
by (group, command, method, path), then registration.  (`List.insertionSort`
is a stable sort like Go's `sort.SliceStable`.) -/
def addOpenAPICommands (docName : String) (ops : List RawOp) : Except GenErr Unit :=
  match ops.find? (fun op => strTrimSpace op.operationId == "") with
  | some op => .error (.missingOperationId docName op.method op.path)
  | none => registerLoop (List.insertionSort genOpLeP (ops.map mkGenOp)) []

/-- Fixtures: two operations whose ids canonicalize to the same command name
(`list-items`), in different groups (`rawOpA`/`rawOpB`) or the same group
(`rawOpA`/`rawOpC`). -/
def rawOpA : RawOp :=
  { method := "GET", path := "/a", operationId := "listItems",
    tags := ["Accounts"], paramRefs := [""], requestBodyRef := none }

def rawOpB : RawOp :=
  { method := "POST", path := "/b", operationId := "listItems",
    tags := ["Transactions"], paramRefs := [], requestBodyRef := some "" }

def rawOpC : RawOp :=
  { method := "POST", path := "/b", operationId := "list_items",
    tags := ["Accounts"], paramRefs := [], requestBodyRef := none }

/-! ## Command execution (`buildOperationCmd`'s RunE closure) -/

/-- `extractPathParams` (url.go): names between `\x7b` and `\x7d` in the path
template, empty names skipped (state machine equivalent of the index-based
scan). -/
def extractLoop : List Char → Option (List Char) → List String
  | [], _ => []
  | c :: rest, none =>
    if c.toNat = 123 then extractLoop rest (some [])
    else extractLoop rest none
  | c :: rest, some acc =>
    if c.toNat = 125 then
      (if acc = [] then [] else [String.mk acc.reverse]) ++ extractLoop rest none
    else extractLoop rest (some (c :: acc))

def extractPathParams (path : String) : List String :=
  extractLoop path.toList none

/-- `cligen.Runtime` (the fields RunE reads). -/
structure Runtime where
  Env : String
  BaseURL : String
  Token : String
  Auth : String
deriving DecidableEq, Repr

/-- An outgoing HTTP request as RunE's `do` closure assembles it. -/
structure HttpRequest where
  method : String
  url : String
  headers : Values
  body : BodyOut
  contentType : String
deriving DecidableEq, Repr

/-- The collaborator calls RunE makes, as oracles: runtime resolution from
the command context, the spec's server lookup, the `net/url` helpers, the
standard library's string/encoding functions, the file system / stdin /
multipart boundary for the body, and the HTTP client itself. -/
structure RunOracle where
  runtime : Except String Runtime
  serverURLForOp : String
  applyEnv : String → String → Except String String
  joinBase : String → String → Except String String
  replaceAll : String → String → String → String
  pathEscape : String → String
  withQuery : String → Values → Except String String
  b64 : String → String
  fs : String → Option String
  stdin : String
  boundary : String
  httpDo : HttpRequest → Except String HttpResult

/-- The per-command data RunE closes over. -/
structure CmdConfig where
  requiresAuth : Bool
  method : String
  pathTemplate : String
  plan : Option PaginationPlan
  queryBindings : List ParamBinding
  headerBindings : List ParamBinding
  body : Option BodyFlags
  flagChanged : String → Bool
  allFlag : Bool
  maxPages : Int
  sleepMs : Nat
  args : List String

/-- Path-parameter expansion (RunE lines 224-227): each `\x7bname\x7d` is
replaced by the escaped positional argument. -/
def expandPath (replaceAll : String → String → String → String)
    (escape : String → String) (template : String) (params args : List String) : String :=
  (params.zip args).foldl
    (fun acc pa => replaceAll acc ("\x7b" ++ pa.1 ++ "\x7d") (escape pa.2)) template

/-- `applyAuth` (mercuryhttp): `basic` → `Basic base64(token + ":")`,
anything else → `Bearer token`. -/
def applyAuthModel (req : HttpRequest) (token scheme : String) (b64 : String → String) :
    HttpRequest :=
  if scheme = "basic" then
    { req with headers := valuesSet req.headers "Authorization" ("Basic " ++ b64 (token ++ ":")) }
  else
    { req with headers := valuesSet req.headers "Authorization" ("Bearer " ++ token) }

/-- Go error strings for body errors (`fmt.Errorf` renderings, abridged). -/
def bodyErrString : BodyErr → String
  | .emptyContentType => "--content-type set but empty"
  | .unsupportedContentType ct => "unsupported --content-type " ++ ct
  | .bodyRequired => "request body required; provide --data or --form"
  | .formNotSupported => "this operation does not support form bodies; use --data"
  | .noContentType => "unable to pick a request content-type for this operation"
  | .jsonNeedsData => "JSON request body requires --data"
  | .formEncodedNeedsForm => "form-encoded body requires --form"
  | .multipartNeedsForm => "multipart body requires --form"
  | .invalidFormEntry e => "invalid --form " ++ e
  | .fileUploadUrlencoded e => "file upload not supported for application/x-www-form-urlencoded: " ++ e
  | .readFileErr p => "open " ++ p ++ ": no such file or directory"

/-- Go error strings for pagination errors. -/
def fetchErrString : FetchErr → String
  | .missingPlan => "missing pagination plan"
  | .pageErr e => e
  | .parseJSON => "parse JSON response"
  | .notObject => "unexpected JSON response type"
  | .missingField f => "response missing " ++ f ++ " field"
  | .notArray f => "response field " ++ f ++ " is not an array"
  | .exceeded m => "pagination exceeded --max-pages=" ++ toString m

/-- The `do` closure of RunE: endpoint with encoded query, body build,
request assembly with bound headers and the unconditional auth application
when a token is present, the HTTP call, and the conversion of 4xx/5xx
statuses into errors.  Also returns the request it issued, if it got that
far. -/
def runDo (cfg : CmdConfig) (oracle : RunOracle) (rt : Runtime) (baseEndpoint : String)
    (qq : Values) : Except String HttpResult × Option HttpRequest :=
  match (if qq ≠ [] then oracle.withQuery baseEndpoint qq else .ok baseEndpoint) with
  | .error e => (.error e, none)
  | .ok endpoint =>
    match (match cfg.body with
      | none => Except.ok (BodyOut.empty, "")
      | some bf => buildBody bf oracle.fs oracle.stdin oracle.boundary) with
    | .error e => (.error (bodyErrString e), none)
    | .ok bodyAndCt =>
      let req1 : HttpRequest :=
        { method := cfg.method, url := endpoint,
          headers := cfg.headerBindings.foldl
            (fun acc b => addToHeaders b cfg.flagChanged acc) [],
          body := bodyAndCt.1, contentType := bodyAndCt.2 }
      let req := if strTrimSpace rt.Token ≠ "" then
          applyAuthModel req1 rt.Token rt.Auth oracle.b64
        else req1
      match oracle.httpDo req with
      | .error e => (.error e, some req)
      | .ok res =>
        if res.Status ≥ 400 then (.error ("HTTP " ++ toString res.Status), some req)
        else (.ok res, some req)

/-- RunE (openapi_cmds.go lines 201-353): runtime resolution, the token
check, base-URL resolution, path expansion, query/header binding, then
either the `--all` pagination branch (gated on GET) or a single call.
The second component lists the HTTP requests issued. -/
def runE (cfg : CmdConfig) (oracle : RunOracle) : Except String Unit × List HttpRequest :=
  match oracle.runtime with
  | .error e => (.error e, [])
  | .ok rt =>
    if cfg.requiresAuth && (strTrimSpace rt.Token == "") then (.error "missing token", [])
    else
      match (if strTrimSpace rt.BaseURL == "" then
          (if strTrimSpace oracle.serverURLForOp == "" then
            Except.error "no server URL found"
          else oracle.applyEnv (strTrimSpace oracle.serverURLForOp) rt.Env)
        else .ok (strTrimSpace rt.BaseURL) : Except String String) with
      | .error e => (.error e, [])
      | .ok baseURL =>
        let expandedPath := expandPath oracle.replaceAll oracle.pathEscape cfg.pathTemplate
          (extractPathParams cfg.pathTemplate) cfg.args
        match oracle.joinBase baseURL expandedPath with
        | .error e => (.error e, [])
        | .ok baseEndpoint =>
          let q := cfg.queryBindings.foldl (fun acc b => addToQuery b cfg.flagChanged acc) []
          if cfg.plan.isSome && cfg.allFlag then
            if cfg.method ≠ "GET" then
              (.error "--all is only supported for GET operations", [])
            else
              let out := fetchAll cfg.plan (some q) cfg.maxPages cfg.sleepMs
                (fun qq => (runDo cfg oracle rt baseEndpoint qq).1)
              let reqs := out.2.filterMap (fun ev => match ev with
                | .call qq => (runDo cfg oracle rt baseEndpoint qq).2
                | .sleep => none)
              match out.1 with
              | .error e => (.error (fetchErrString e), reqs)
              | .ok _ => (.ok (), reqs)
          else
            match runDo cfg oracle rt baseEndpoint q with
            | (.error e, ro) => (.error e, ro.toList)
            | (.ok _, ro) => (.ok (), ro.toList)

/-- Fixture oracle whose collaborator calls all succeed. -/
def oracleFix : RunOracle :=
  { runtime := .ok { Env := "prod", BaseURL := "http://api.test", Token := "t", Auth := "bearer" },
    serverURLForOp := "",
    applyEnv := fun u _ => .ok u,
    joinBase := fun b p => .ok (b ++ p),
    replaceAll := fun s _ _ => s,
    pathEscape := fun s => s,
    withQuery := fun u _ => .ok u,
    b64 := fun s => s,
    fs := fun _ => none,
    stdin := "",
    boundary := "bd",
    httpDo := fun _ => .ok { Status := 200, Headers := [], Body := some (.obj []) } }

/-- Fixture command: a POST operation with a detected cursor plan, invoked
with `--all`. -/
def cfgPostAll : CmdConfig :=
  { requiresAuth := false, method := "POST", pathTemplate := "/x",
    plan := some cursorPlan, queryBindings := [], headerBindings := [],
    body := none, flagChanged := fun _ => false, allFlag := true,
    maxPages := 1000, sleepMs := 0, args := [] }

/-- Character class `[a-z0-9]` of the specification's regex. -/
def isLowerAlnum (c : Char) : Bool :=
  (decide (97 ≤ c.toNat) && decide (c.toNat ≤ 122)) ||
    (decide (48 ≤ c.toNat) && decide (c.toNat ≤ 57))

/-- A character the regex `^[a-z0-9]+(-[a-z0-9]+)*$` admits at all. -/
def goodChar (c : Char) : Bool := isLowerAlnum c || c == '-'

/-- The regex `^[a-z0-9]+(-[a-z0-9]+)*$` on a nonempty character list: only
lowercase ASCII letters, digits and hyphens; no leading or trailing hyphen;
no two adjacent hyphens.  For a nonempty list these conditions hold exactly
when the list is a `-`-separated sequence of nonempty `[a-z0-9]` groups. -/
def kebabShapeOK (l : List Char) : Prop :=
  (∀ c ∈ l, goodChar c = true) ∧ hasDoubleDash l = false ∧
    l.head? ≠ some '-' ∧ l.getLast? ≠ some '-'

/-! ### Character-level helper lemmas -/

theorem char_eq_of_toNat_eq {a b : Char} (h : a.toNat = b.toNat) : a = b :=
  Char.eq_of_val_eq (UInt32.eq_of_toBitVec_eq (BitVec.eq_of_toNat_eq h))

theorem toNat_charOfNat_of_lt {n : Nat} (h : n < 0xD800) : (Char.ofNat n).toNat = n := by
  have hv : n.isValidChar := Or.inl h
  simp [Char.ofNat, hv, Char.ofNatAux, Char.toNat, UInt32.toNat, UInt32.ofNat',
    BitVec.toNat_ofNat]

theorem categorize_lower {c : Char} (h : categorize c = .lower) :
    97 ≤ c.toNat ∧ c.toNat ≤ 122 := by
  unfold categorize at h
  split_ifs at h with h1 h2 h3 <;> simp_all

theorem categorize_upper {c : Char} (h : categorize c = .upper) :
    65 ≤ c.toNat ∧ c.toNat ≤ 90 := by
  unfold categorize at h
  split_ifs at h with h1 h2 h3 <;> simp_all

theorem categorize_digit {c : Char} (h : categorize c = .digit) :
    48 ≤ c.toNat ∧ c.toNat ≤ 57 := by
  unfold categorize at h
  split_ifs at h with h1 h2 h3 <;> simp_all

theorem isLowerAlnum_iff {c : Char} :
    isLowerAlnum c = true ↔ (97 ≤ c.toNat ∧ c.toNat ≤ 122) ∨ (48 ≤ c.toNat ∧ c.toNat ≤ 57) := by
  simp [isLowerAlnum]

theorem isLowerAlnum_ne_dash {c : Char} (h : isLowerAlnum c = true) : c ≠ '-' := by
  intro he
  subst he
  exact absurd h (by decide)

theorem isLowerAlnum_good {c : Char} (h : isLowerAlnum c = true) : goodChar c = true := by
  simp [goodChar, h]

theorem goodChar_dash : goodChar '-' = true := by decide

/-- The character written by the alphanumeric branch of the rune loop is in
`[a-z0-9]`. -/
theorem written_isLowerAlnum {c : Char} (h : isAlnumCat (categorize c) = true) :
    isLowerAlnum (if categorize c == .upper then toLowerGo c else c) = true := by
  cases hcat : categorize c with
  | other => rw [hcat] at h; simp [isAlnumCat] at h
  | lower =>
    have := categorize_lower hcat
    rw [if_neg (by decide), isLowerAlnum_iff]
    exact Or.inl this
  | digit =>
    have := categorize_digit hcat
    rw [if_neg (by decide), isLowerAlnum_iff]
    exact Or.inr this
  | upper =>
    have hb := categorize_upper hcat
    rw [if_pos (by decide)]
    unfold toLowerGo
    rw [if_pos hb, isLowerAlnum_iff, toNat_charOfNat_of_lt (by omega)]
    omega

/-! ### Invariants of the `kebabCase` rune loop -/

theorem hasDoubleDash_cons_false_iff {x : Char} {l : List Char} :
    hasDoubleDash (x :: l) = false ↔
      ¬(x = '-' ∧ l.head? = some '-') ∧ hasDoubleDash l = false := by
  cases l with
  | nil => simp [hasDoubleDash]
  | cons b t =>
    simp only [hasDoubleDash, List.head?_cons, Bool.or_eq_false_iff, Bool.and_eq_false_iff,
      beq_eq_false_iff_ne, ne_eq, Option.some.injEq]
    tauto

theorem hasDD_tail {x : Char} {l : List Char} (h : hasDoubleDash (x :: l) = false) :
    hasDoubleDash l = false := (hasDoubleDash_cons_false_iff.mp h).2

theorem hasDD_cons_of_ne {x : Char} {l : List Char} (hx : x ≠ '-')
    (h : hasDoubleDash l = false) : hasDoubleDash (x :: l) = false :=
  hasDoubleDash_cons_false_iff.mpr ⟨fun hc => hx hc.1, h⟩

theorem hasDD_cons_of_head {x : Char} {l : List Char} (hl : l.head? ≠ some '-')
    (h : hasDoubleDash l = false) : hasDoubleDash (x :: l) = false :=
  hasDoubleDash_cons_false_iff.mpr ⟨fun hc => hl hc.2, h⟩

/-- Every character the rune loop emits is a lowercase letter, a digit, or a
hyphen. -/
theorem kebabRec_good (l : List Char) : ∀ (st pd : Bool) (pc : RuneCategory),
    ∀ c ∈ kebabRec l st pd pc, goodChar c = true := by
  induction l with
  | nil => intro st pd pc c hc; simp [kebabRec] at hc
  | cons a t ih =>
    intro st pd pc c hc
    simp only [kebabRec] at hc
    by_cases hcat : isAlnumCat (categorize a) = true
    · rw [if_pos hcat] at hc
      rcases List.mem_append.mp hc with h1 | h2
      · have hc' : c = '-' := by
          by_cases hd : (st && !pd && (categorize a == RuneCategory.upper) &&
              ((pc == RuneCategory.lower) || (pc == RuneCategory.digit))) = true
          · rw [if_pos hd] at h1; simpa using h1
          · rw [if_neg hd] at h1; simp at h1
        rw [hc']; exact goodChar_dash
      · rcases List.mem_cons.mp h2 with h3 | h4
        · rw [h3]
          exact isLowerAlnum_good (written_isLowerAlnum hcat)
        · exact ih true false (categorize a) c h4
    · rw [if_neg hcat] at hc
      by_cases hsep : (st && !pd) = true
      · rw [if_pos hsep] at hc
        rcases List.mem_cons.mp hc with h3 | h4
        · rw [h3]; exact goodChar_dash
        · exact ih st true (categorize a) c h4
      · rw [if_neg hsep] at hc
        exact ih st pd (categorize a) c hc

/-- The written character of the alphanumeric branch is never a hyphen. -/
theorem written_ne_dash {c : Char} (h : isAlnumCat (categorize c) = true) :
    (if categorize c == RuneCategory.upper then toLowerGo c else c) ≠ '-' :=
  isLowerAlnum_ne_dash (written_isLowerAlnum h)

/-- The rune loop never emits two adjacent hyphens, and right after emitting
a hyphen (`prevDash = true`) the next emitted character is not a hyphen. -/
theorem kebabRec_noDD (l : List Char) : ∀ (st pd : Bool) (pc : RuneCategory),
    hasDoubleDash (kebabRec l st pd pc) = false ∧
      (pd = true → (kebabRec l st pd pc).head? ≠ some '-') := by
  induction l with
  | nil => intro st pd pc; constructor <;> simp [kebabRec, hasDoubleDash]
  | cons a t ih =>
    intro st pd pc
    simp only [kebabRec]
    by_cases hcat : isAlnumCat (categorize a) = true
    · rw [if_pos hcat]
      have hw := written_ne_dash hcat
      have hrec := ih true false (categorize a)
      by_cases hd : (st && !pd && (categorize a == RuneCategory.upper) &&
          ((pc == RuneCategory.lower) || (pc == RuneCategory.digit))) = true
      · rw [if_pos hd]
        have hpd : pd = false := by
          cases pd
          · rfl
          · simp at hd
        constructor
        · apply hasDD_cons_of_head
          · simpa using hw
          · exact hasDD_cons_of_ne hw hrec.1
        · intro hpdt; rw [hpd] at hpdt; exact absurd hpdt (by simp)
      · rw [if_neg hd]
        constructor
        · exact hasDD_cons_of_ne hw hrec.1
        · intro _; simpa using hw
    · rw [if_neg hcat]
      by_cases hsep : (st && !pd) = true
      · rw [if_pos hsep]
        have hrec := ih st true (categorize a)
        have hpd : pd = false := by
          cases pd
          · rfl
          · simp at hsep
        constructor
        · exact hasDD_cons_of_head (hrec.2 rfl) hrec.1
        · intro hpdt; rw [hpd] at hpdt; exact absurd hpdt (by simp)
      · rw [if_neg hsep]
        exact ih st pd (categorize a)

/-- Started from the initial state, the loop's output never begins with a
hyphen (a separator hyphen is only written once the builder is nonempty). -/
theorem kebabRec_head_not_dash (l : List Char) : ∀ (pc : RuneCategory),
    (kebabRec l false false pc).head? ≠ some '-' := by
  induction l with
  | nil => intro pc; simp [kebabRec]
  | cons a t ih =>
    intro pc
    simp only [kebabRec]
    by_cases hcat : isAlnumCat (categorize a) = true
    · rw [if_pos hcat]
      rw [if_neg (by simp)]
      simpa using written_ne_dash hcat
    · rw [if_neg hcat]
      rw [if_neg (by simp)]
      exact ih (categorize a)

/-- On input already in canonical kebab shape the rune loop is the identity.
The side condition on `st`/`pd` covers the entry states in which a leading
hyphen would be dropped (`st = false`) or absorbed (`pd = true`). -/
theorem kebabRec_fixed (l : List Char) : ∀ (st pd : Bool) (pc : RuneCategory),
    (∀ c ∈ l, goodChar c = true) → hasDoubleDash l = false →
    l.getLast? ≠ some '-' → ((pd = true ∨ st = false) → l.head? ≠ some '-') →
    kebabRec l st pd pc = l := by
  induction l with
  | nil => intro st pd pc _ _ _ _; simp [kebabRec]
  | cons a t ih =>
    intro st pd pc hg hdd hlast hhead
    simp only [kebabRec]
    by_cases ha : a = '-'
    · have hst : st = true := by
        cases st
        · exact absurd (hhead (Or.inr rfl)) (by simp [ha])
        · rfl
      have hpd : pd = false := by
        cases pd
        · rfl
        · exact absurd (hhead (Or.inl rfl)) (by simp [ha])
      have hcat : isAlnumCat (categorize a) = false := by rw [ha]; decide
      rw [if_neg (by simp [hcat]), if_pos (by simp [hst, hpd])]
      have htne : t ≠ [] := by
        intro he
        rw [he, ha] at hlast
        simp at hlast
      have hthead : t.head? ≠ some '-' := by
        intro hh
        exact (hasDoubleDash_cons_false_iff.mp hdd).1 ⟨ha, hh⟩
      have htlast : t.getLast? ≠ some '-' := by
        cases t with
        | nil => exact absurd rfl htne
        | cons b t' => rw [List.getLast?_cons_cons] at hlast; exact hlast
      rw [ih st true (categorize a) (fun c hc => hg c (List.mem_cons_of_mem a hc))
        (hasDD_tail hdd) htlast (fun _ => hthead), ha]
    · have hga : goodChar a = true := hg a (List.mem_cons_self a t)
      have hla : isLowerAlnum a = true := by
        simp only [goodChar, Bool.or_eq_true, beq_iff_eq] at hga
        rcases hga with h | h
        · exact h
        · exact absurd h ha
      have hbounds := isLowerAlnum_iff.mp hla
      have hcat : categorize a = .lower ∨ categorize a = .digit := by
        unfold categorize
        rcases hbounds with h | h
        · left; rw [if_pos h]
        · right
          rw [if_neg (by omega), if_neg (by omega), if_pos h]
      have hcat' : isAlnumCat (categorize a) = true := by
        rcases hcat with h | h <;> rw [h] <;> rfl
      rw [if_pos hcat']
      rw [if_neg (by rcases hcat with h | h <;> simp [h])]
      rw [if_neg (by rcases hcat with h | h <;> simp [h])]
      cases t with
      | nil => simp [kebabRec]
      | cons b t' =>
        have hrec := ih true false (categorize a)
          (fun c hc => hg c (List.mem_cons_of_mem a hc)) (hasDD_tail hdd)
          (by rw [List.getLast?_cons_cons] at hlast; exact hlast)
          (by rintro (h | h) <;> simp at h)
        simp only [List.nil_append, hrec]

/-! ### Trimming and collapsing -/

theorem trimDashes_eq_rdrop (l : List Char) :
    trimDashes l = List.rdropWhile (· == '-') (l.dropWhile (· == '-')) := rfl

theorem trimSpace_eq_rdrop (l : List Char) :
    trimSpaceList l = List.rdropWhile goIsSpace (l.dropWhile goIsSpace) := rfl

theorem head?_mem {l : List Char} {a : Char} (h : l.head? = some a) : a ∈ l := by
  cases l with
  | nil => simp at h
  | cons b t =>
    simp only [List.head?_cons, Option.some.injEq] at h
    rw [← h]
    exact List.mem_cons_self b t

theorem dropWhile_eq_self_of_head {p : Char → Bool} {l : List Char}
    (h : ∀ a, l.head? = some a → p a = false) : l.dropWhile p = l := by
  cases l with
  | nil => rfl
  | cons a t => rw [List.dropWhile_cons, if_neg (by simp [h a rfl])]

theorem noDD_append_left {l₁ l₂ : List Char} (h : hasDoubleDash (l₁ ++ l₂) = false) :
    hasDoubleDash l₁ = false := by
  induction l₁ with
  | nil => rfl
  | cons a t ih =>
    obtain ⟨h1, h2⟩ := hasDoubleDash_cons_false_iff.mp (by simpa using h)
    refine hasDoubleDash_cons_false_iff.mpr ⟨?_, ih h2⟩
    rintro ⟨ha, hh⟩
    apply h1
    refine ⟨ha, ?_⟩
    cases t with
    | nil => simp at hh
    | cons b t' => simpa using hh

theorem noDD_of_pref {l₁ l₂ : List Char} (h : l₁ <+: l₂)
    (hdd : hasDoubleDash l₂ = false) : hasDoubleDash l₁ = false := by
  obtain ⟨t, rfl⟩ := h
  exact noDD_append_left hdd

theorem head?_of_pref {l₁ l₂ : List Char} (h : l₁ <+: l₂) (hne : l₁ ≠ []) :
    l₁.head? = l₂.head? := by
  obtain ⟨t, rfl⟩ := h
  cases l₁ with
  | nil => exact absurd rfl hne
  | cons a t' => simp

theorem getLast?_ne_of_rdrop {p : Char → Bool} {l : List Char} {c : Char} (hp : p c = true) :
    (List.rdropWhile p l).getLast? ≠ some c := by
  intro hcon
  have hne : List.rdropWhile p l ≠ [] := by
    intro he
    rw [he] at hcon
    simp at hcon
  have hlast := List.rdropWhile_last_not p l hne
  rw [List.getLast?_eq_getLast _ hne, Option.some.injEq] at hcon
  rw [hcon] at hlast
  exact hlast hp

theorem replaceDashPairs_id {l : List Char} (h : hasDoubleDash l = false) :
    replaceDashPairs l = l := by
  induction l with
  | nil => rfl
  | cons a t ih =>
    cases t with
    | nil => rfl
    | cons b t' =>
      obtain ⟨h1, h2⟩ := hasDoubleDash_cons_false_iff.mp h
      rw [replaceDashPairs, if_neg (by simp only [List.head?_cons] at h1; simp; tauto)]
      rw [ih h2]

theorem collapseLoop_id {l : List Char} (h : hasDoubleDash l = false) (n : Nat) :
    collapseLoop n l = l := by
  cases n with
  | zero => rfl
  | succ m => rw [collapseLoop, if_neg (by simp [h])]

theorem collapseDashes_id {l : List Char} (h : hasDoubleDash l = false) :
    collapseDashes l = l := by
  unfold collapseDashes
  simp only [replaceDashPairs_id h]
  exact collapseLoop_id h _

theorem goodChar_not_space {c : Char} (h : goodChar c = true) : goIsSpace c = false := by
  have hb : (97 ≤ c.toNat ∧ c.toNat ≤ 122) ∨ (48 ≤ c.toNat ∧ c.toNat ≤ 57) ∨ c.toNat = 45 := by
    simp only [goodChar, Bool.or_eq_true, beq_iff_eq] at h
    rcases h with h | h
    · rcases isLowerAlnum_iff.mp h with h1 | h1
      · exact Or.inl h1
      · exact Or.inr (Or.inl h1)
    · right; right; rw [h]; rfl
  simp only [goIsSpace, Bool.or_eq_false_iff, Bool.and_eq_false_iff,
    decide_eq_false_iff_not, beq_eq_false_iff_ne, ne_eq]
  omega

theorem trimSpaceList_id {l : List Char} (hg : ∀ c ∈ l, goodChar c = true) :
    trimSpaceList l = l := by
  rw [trimSpace_eq_rdrop,
    dropWhile_eq_self_of_head (fun a ha => goodChar_not_space (hg a (head?_mem ha)))]
  apply List.rdropWhile_eq_self_iff.mpr
  intro hl
  rw [goodChar_not_space (hg _ (List.getLast_mem hl))]
  simp

theorem trimDashes_id {l : List Char} (h1 : l.head? ≠ some '-')
    (h2 : l.getLast? ≠ some '-') : trimDashes l = l := by
  rw [trimDashes_eq_rdrop, dropWhile_eq_self_of_head (fun a ha => by
    simp only [beq_eq_false_iff_ne, ne_eq]
    intro he
    rw [he] at ha
    exact h1 ha)]
  apply List.rdropWhile_eq_self_iff.mpr
  intro hl
  simp only [beq_iff_eq]
  intro he
  apply h2
  rw [List.getLast?_eq_getLast _ hl, he]

theorem trimDashes_shape {l : List Char} (hg : ∀ c ∈ l, goodChar c = true)
    (hdd : hasDoubleDash l = false) (hh : l.head? ≠ some '-') :
    trimDashes l = [] ∨ (trimDashes l ≠ [] ∧ kebabShapeOK (trimDashes l)) := by
  have hdw : l.dropWhile (· == '-') = l := dropWhile_eq_self_of_head (fun a ha => by
    simp only [beq_eq_false_iff_ne, ne_eq]
    intro he
    rw [he] at ha
    exact hh ha)
  rw [trimDashes_eq_rdrop, hdw]
  by_cases he : List.rdropWhile (· == '-') l = []
  · exact Or.inl he
  · right
    have hpre : List.rdropWhile (· == '-') l <+: l := List.rdropWhile_prefix _ _
    refine ⟨he, fun c hc => hg c (hpre.subset hc), noDD_of_pref hpre hdd, ?_, ?_⟩
    · rw [head?_of_pref hpre he]
      exact hh
    · exact getLast?_ne_of_rdrop (by decide)

theorem kebabCase_toList_shape (s : String) :
    kebabCase s = "" ∨ ((kebabCase s).toList ≠ [] ∧ kebabShapeOK (kebabCase s).toList) := by
  unfold kebabCase
  by_cases ht : (trimSpaceList s.toList).isEmpty = true
  · rw [if_pos ht]
    exact Or.inl rfl
  · rw [if_neg ht]
    have hg := kebabRec_good (trimSpaceList s.toList) false false .other
    have hdd := (kebabRec_noDD (trimSpaceList s.toList) false false .other).1
    have hh := kebabRec_head_not_dash (trimSpaceList s.toList) .other
    rcases trimDashes_shape hg hdd hh with h | ⟨hne, hshape⟩
    · left
      rw [h]
      rfl
    · right
      rw [collapseDashes_id hshape.2.1]
      exact ⟨by simpa using hne, hshape⟩

theorem kebabCase_idem (s : String) : kebabCase (kebabCase s) = kebabCase s := by
  rcases kebabCase_toList_shape s with h | ⟨hne, hshape⟩
  · rw [h]
    rfl
  · obtain ⟨hg, hdd, hh, hl⟩ := hshape
    conv_lhs => rw [kebabCase]
    rw [trimSpaceList_id hg]
    rw [if_neg (by simpa using hne)]
    rw [kebabRec_fixed _ false false .other hg hdd hl (fun _ => hh)]
    rw [trimDashes_id hh hl, collapseDashes_id hdd]
    rfl

/-- Claim C5: the naming normalizer is idempotent — `kebabCase (kebabCase s)
= kebabCase s` for every string `s` — and its output is either empty or
matches `^[a-z0-9]+(-[a-z0-9]+)*$` (stated by `kebabShapeOK`: every character
is a lowercase ASCII letter, digit or hyphen, no leading hyphen, no trailing
hyphen, and no two adjacent hyphens). -/
theorem C5_kebabCase_idempotent_and_shape (s : String) :
    kebabCase (kebabCase s) = kebabCase s ∧
      (kebabCase s = "" ∨ ((kebabCase s).toList ≠ [] ∧ kebabShapeOK (kebabCase s).toList)) :=
  ⟨kebabCase_idem s, kebabCase_toList_shape s⟩

/-! ### Transport retry theorems -/

/-- Claim C2: the retry predicate holds iff the status is 429 or at least 500
and either the upper-cased method is one of GET/HEAD/PUT/DELETE/OPTIONS or
the caller opted in to retrying non-idempotent methods.  In particular a 503
to a GET is retried — with the total number of attempts capped at 5 — and a
503 to a POST is not retried unless the opt-in is set. -/
theorem C2_shouldRetry_characterization :
    (∀ (status : Nat) (method : String) (retryNI : Bool),
        shouldRetry status method retryNI = true ↔
          ((status = 429 ∨ 500 ≤ status) ∧
            (strToUpperGo method ∈ (["GET", "HEAD", "PUT", "DELETE", "OPTIONS"] : List String) ∨
              retryNI = true))) ∧
      shouldRetry 503 "GET" false = true ∧
      shouldRetry 503 "POST" false = false ∧
      shouldRetry 503 "POST" true = true ∧
      clientDo (fun _ => .response 503) "GET" false = (.ok 503, 5) ∧
      clientDo (fun _ => .response 503) "POST" false = (.ok 503, 1) := by
  refine ⟨?_, by decide, by decide, by decide, by rfl, by rfl⟩
  intro status method retryNI
  unfold shouldRetry
  by_cases h1 : (status == 429 || decide (500 ≤ status)) = true
  · rw [if_pos h1]
    have hs : status = 429 ∨ 500 ≤ status := by
      simpa using h1
    by_cases h2 : (strToUpperGo method == "GET" || strToUpperGo method == "HEAD" ||
        strToUpperGo method == "PUT" || strToUpperGo method == "DELETE" ||
        strToUpperGo method == "OPTIONS") = true
    · rw [if_pos h2]
      simp only [true_iff]
      refine ⟨hs, Or.inl ?_⟩
      simp only [Bool.or_eq_true, beq_iff_eq] at h2
      simp only [List.mem_cons, List.not_mem_nil, or_false]
      tauto
    · rw [if_neg h2]
      have h2' : ¬(strToUpperGo method = "GET" ∨ strToUpperGo method = "HEAD" ∨
          strToUpperGo method = "PUT" ∨ strToUpperGo method = "DELETE" ∨
          strToUpperGo method = "OPTIONS") := by
        intro hc
        apply h2
        simp only [Bool.or_eq_true, beq_iff_eq]
        tauto
      constructor
      · intro hr
        exact ⟨hs, Or.inr hr⟩
      · rintro ⟨_, hm | hr⟩
        · exfalso
          apply h2'
          simpa using hm
        · exact hr
  · rw [if_neg h1]
    simp only [Bool.or_eq_true, beq_iff_eq, decide_eq_true_eq] at h1
    push_neg at h1
    constructor
    · intro hc
      simp at hc
    · rintro ⟨hs, _⟩
      omega

/-! ### `fetchAll` loop lemmas -/

/-- Any iteration of the loop first fetches a page: the trace starts with a
`call` event carrying the query of that fetch. -/
theorem fetchAllLoop_trace_cons (plan : PaginationPlan)
    (doF : Values → Except String HttpResult) (sleepMs : Nat) (maxP : Int) (fuel : Nat)
    (q : Values) (offset : Int) (res : PaginationResult) :
    ∃ tl, (fetchAllLoop plan doF sleepMs maxP (fuel + 1) q offset res).2 =
      .call (if plan.mode = .offset then valuesSet q plan.queryParam (toString offset) else q)
        :: tl := by
  simp only [fetchAllLoop]
  repeat' split
  all_goals exact ⟨_, rfl⟩

theorem fetchAllLoop_trace_ne_nil (plan : PaginationPlan)
    (doF : Values → Except String HttpResult) (sleepMs : Nat) (maxP : Int) (fuel : Nat)
    (q : Values) (offset : Int) (res : PaginationResult) :
    (fetchAllLoop plan doF sleepMs maxP (fuel + 1) q offset res).2 ≠ [] := by
  obtain ⟨tl, h⟩ := fetchAllLoop_trace_cons plan doF sleepMs maxP fuel q offset res
  rw [h]
  simp

theorem countCalls_cons_call (q : Values) (l : List FetchEvent) :
    countCalls (.call q :: l) = countCalls l + 1 := by
  simp [countCalls, List.countP_cons]

theorem countCalls_append (a b : List FetchEvent) :
    countCalls (a ++ b) = countCalls a + countCalls b := by
  simp [countCalls, List.countP_append]

theorem countCalls_sleeps (sleepMs : Nat) :
    countCalls (if sleepMs > 0 then [FetchEvent.sleep] else []) = 0 := by
  split <;> simp [countCalls, List.countP_cons, List.countP_nil]

theorem twoSleeps_cons_false_iff {e : FetchEvent} {l : List FetchEvent} :
    twoSleeps (e :: l) = false ↔
      ¬(e = .sleep ∧ l.head? = some .sleep) ∧ twoSleeps l = false := by
  cases e with
  | call q =>
    cases l with
    | nil => simp [twoSleeps]
    | cons f t =>
      constructor
      · intro h
        refine ⟨by simp, ?_⟩
        simpa [twoSleeps] using h
      · intro ⟨_, h⟩
        simpa [twoSleeps] using h
  | sleep =>
    cases l with
    | nil => simp [twoSleeps]
    | cons f t =>
      cases f with
      | call q' =>
        constructor
        · intro h
          refine ⟨by simp, ?_⟩
          simpa [twoSleeps] using h
        · intro ⟨_, h⟩
          simpa [twoSleeps] using h
      | sleep =>
        constructor
        · intro h
          simp [twoSleeps] at h
        · intro ⟨h, _⟩
          exact absurd ⟨rfl, rfl⟩ h

/-- One loop iteration either terminates (one `call` event, and the result is
never the page-cap error) or recurses after the call and the optional sleep. -/
theorem fetchAllLoop_succ_shape (plan : PaginationPlan)
    (doF : Values → Except String HttpResult) (sleepMs : Nat) (maxP : Int) (fuel : Nat)
    (q : Values) (offset : Int) (res : PaginationResult) :
    (∃ q1 out, (∀ m, out ≠ .error (.exceeded m)) ∧
      fetchAllLoop plan doF sleepMs maxP (fuel + 1) q offset res = (out, [.call q1])) ∨
    (∃ q1 q2 offset2 res2,
      fetchAllLoop plan doF sleepMs maxP (fuel + 1) q offset res =
        ((fetchAllLoop plan doF sleepMs maxP fuel q2 offset2 res2).1,
          .call q1 :: ((if sleepMs > 0 then [FetchEvent.sleep] else []) ++
            (fetchAllLoop plan doF sleepMs maxP fuel q2 offset2 res2).2))) := by
  simp only [fetchAllLoop]
  repeat' split
  all_goals
    first
      | exact Or.inl ⟨_, _, by intro m; simp, rfl⟩
      | exact Or.inr ⟨_, _, _, _, rfl⟩

/-- Sleep discipline of the loop: the trace never starts with a sleep, never
holds two adjacent sleeps, holds no sleep at all when the delay is zero, and
ends with a sleep only when the run exhausts the page cap. -/
theorem fetchAllLoop_sleep_shape (plan : PaginationPlan)
    (doF : Values → Except String HttpResult) (sleepMs : Nat) (maxP : Int) :
    ∀ (fuel : Nat) (q : Values) (offset : Int) (res : PaginationResult),
      (fetchAllLoop plan doF sleepMs maxP fuel q offset res).2.head? ≠ some .sleep ∧
      twoSleeps (fetchAllLoop plan doF sleepMs maxP fuel q offset res).2 = false ∧
      (sleepMs = 0 → FetchEvent.sleep ∉ (fetchAllLoop plan doF sleepMs maxP fuel q offset res).2) ∧
      ((∀ m, (fetchAllLoop plan doF sleepMs maxP fuel q offset res).1 ≠ .error (.exceeded m)) →
        (fetchAllLoop plan doF sleepMs maxP fuel q offset res).2.getLast? ≠ some .sleep) := by
  intro fuel
  induction fuel with
  | zero =>
    intro q offset res
    refine ⟨by simp [fetchAllLoop], by simp [fetchAllLoop, twoSleeps],
      by simp [fetchAllLoop], fun h => absurd rfl (h maxP)⟩
  | succ fuel ih =>
    intro q offset res
    rcases fetchAllLoop_succ_shape plan doF sleepMs maxP fuel q offset res with
      ⟨q1, out, hne, heq⟩ | ⟨q1, q2, offset2, res2, heq⟩
    · rw [heq]
      refine ⟨by simp, by simp [twoSleeps], by simp, fun _ => by simp⟩
    · rw [heq]
      obtain ⟨ihHead, ihTwo, ihZero, ihLast⟩ := ih q2 offset2 res2
      refine ⟨by simp, ?_, ?_, ?_⟩
      · apply twoSleeps_cons_false_iff.mpr
        refine ⟨by simp, ?_⟩
        by_cases hs : sleepMs > 0
        · rw [if_pos hs]
          apply twoSleeps_cons_false_iff.mpr
          exact ⟨fun hc => ihHead hc.2, ihTwo⟩
        · rw [if_neg hs]
          exact ihTwo
      · intro h0
        rw [if_neg (by omega)]
        simp only [List.nil_append, List.mem_cons]
        rintro (h | h)
        · exact absurd h.symm (by simp)
        · exact ihZero h0 h
      · intro hres
        cases fuel with
        | zero => exact absurd rfl (hres maxP)
        | succ fuel' =>
          have hne2 := fetchAllLoop_trace_ne_nil plan doF sleepMs maxP fuel' q2 offset2 res2
          rw [show (FetchEvent.call q1 :: ((if sleepMs > 0 then [FetchEvent.sleep] else []) ++
              (fetchAllLoop plan doF sleepMs maxP (fuel' + 1) q2 offset2 res2).2)) =
              ((FetchEvent.call q1 :: (if sleepMs > 0 then [FetchEvent.sleep] else [])) ++
              (fetchAllLoop plan doF sleepMs maxP (fuel' + 1) q2 offset2 res2).2) from by simp]
          rw [List.getLast?_append_of_ne_nil _ hne2]
          exact ihLast hres

/-- `fetchAll` on a usable plan is the loop entered on a deep copy of the
caller's query. -/
theorem fetchAll_eq_loop (p : PaginationPlan) (hm : p.mode ≠ .none) (iq : Option Values)
    (maxP : Int) (sleepMs : Nat) (doF : Values → Except String HttpResult) :
    fetchAll (some p) iq maxP sleepMs doF =
      fetchAllLoop p doF sleepMs (effMaxPages maxP) (effMaxPages maxP).toNat
        (cloneValues (iq.getD []))
        (initialOffset p (cloneValues (iq.getD []))) emptyPagResult := by
  simp [fetchAll, hm]

/-- Claim C8 counterexample: with a page cap of 1, a positive inter-page
delay, and a first page that carries a next-page token, the run ends with the
page-cap error and its event trace is `[call, sleep]` — the sleep happens
after the final fetched page even though the loop was not ended by a stop
condition, contradicting the claim's "no sleep occurs after the final fetched
page when the run ends for any other reason". -/
theorem C8_counterexample :
    (fetchAll (some cursorPlan) (some []) 1 5 doCursorPages).1 = .error (.exceeded 1) ∧
      (fetchAll (some cursorPlan) (some []) 1 5 doCursorPages).2 =
        [.call [], .sleep] := by
  exact ⟨rfl, rfl⟩

/-- Claim C8 (amended): the inter-page sleep never occurs before the first
fetch, never twice in a row, not at all when the configured delay is zero,
and never after the final fetched page when the run ends by a stop condition
or by a per-page failure; the one exception is the run that exhausts the page
cap, where a final sleep follows the last fetched page before the
"pagination exceeded" error is returned (final two conjuncts: the concrete
cap-exhausting run above ends in a sleep, while a two-page cursor run with a
delay sleeps exactly once, between the two fetches). -/
theorem C8_amended_sleep_discipline (plan : Option PaginationPlan) (iq : Option Values)
    (maxP : Int) (sleepMs : Nat) (doF : Values → Except String HttpResult) :
    ((fetchAll plan iq maxP sleepMs doF).2.head? ≠ some .sleep ∧
      twoSleeps (fetchAll plan iq maxP sleepMs doF).2 = false ∧
      (sleepMs = 0 → FetchEvent.sleep ∉ (fetchAll plan iq maxP sleepMs doF).2) ∧
      ((∀ m, (fetchAll plan iq maxP sleepMs doF).1 ≠ .error (.exceeded m)) →
        (fetchAll plan iq maxP sleepMs doF).2.getLast? ≠ some .sleep)) ∧
    (fetchAll (some cursorPlan) (some []) 1 5 doCursorPages).2.getLast? = some .sleep ∧
    (fetchAll (some cursorPlan) (some []) 1000 5 doCursorPages).2 =
      [.call [], .sleep, .call [("start_after", ["t1"])]] := by
  refine ⟨?_, rfl, rfl⟩
  cases plan with
  | none =>
    exact ⟨by simp [fetchAll], by simp [fetchAll, twoSleeps], by simp [fetchAll],
      fun _ => by simp [fetchAll]⟩
  | some p =>
    by_cases hm : p.mode = .none
    · exact ⟨by simp [fetchAll, hm], by simp [fetchAll, hm, twoSleeps],
        by simp [fetchAll, hm], fun _ => by simp [fetchAll, hm]⟩
    · rw [fetchAll_eq_loop p hm iq maxP sleepMs doF]
      exact fetchAllLoop_sleep_shape p doF sleepMs (effMaxPages maxP) _ _ _ _

/-- When every page the callback returns parses and triggers no stop
condition, the loop burns its whole budget — one page fetch per budget unit —
and reports the page-cap error. -/
theorem fetchAllLoop_live (plan : PaginationPlan)
    (doF : Values → Except String HttpResult) (sleepMs : Nat) (maxP : Int)
    (h : ∀ q : Values, ∃ r obj items, doF q = .ok r ∧ r.Body = some (.obj obj) ∧
      objGet obj plan.itemField = some (.arr items) ∧
      ∀ off : Int, pageLive plan obj items off) :
    ∀ (fuel : Nat) (q : Values) (offset : Int) (res : PaginationResult),
      (fetchAllLoop plan doF sleepMs maxP fuel q offset res).1 = .error (.exceeded maxP) ∧
      countCalls (fetchAllLoop plan doF sleepMs maxP fuel q offset res).2 = fuel := by
  intro fuel
  induction fuel with
  | zero => intro q offset res; exact ⟨rfl, rfl⟩
  | succ fuel ih =>
    intro q offset res
    obtain ⟨r, obj, items, hdo, hbody, hitems, hlive⟩ :=
      h (if plan.mode = .offset then valuesSet q plan.queryParam (toString offset) else q)
    simp only [fetchAllLoop, hdo, hbody, hitems]
    cases hm : plan.mode with
    | none => exact absurd (hlive 0) (by simp [pageLive, hm])
    | cursor =>
      have hnext : ¬cursorNextToken obj = "" := by
        have := hlive 0
        simpa [pageLive, hm] using this
      simp only [hm, if_neg hnext]
      refine ⟨(ih _ _ _).1, ?_⟩
      rw [countCalls_cons_call, countCalls_append, countCalls_sleeps, (ih _ _ _).2]
      omega
    | pageToken =>
      have hnext : ¬stringField obj plan.nextTokenField = "" := by
        have := hlive 0
        simpa [pageLive, hm] using this
      simp only [hm, if_neg hnext]
      refine ⟨(ih _ _ _).1, ?_⟩
      rw [countCalls_cons_call, countCalls_append, countCalls_sleeps, (ih _ _ _).2]
      omega
    | offset =>
      have hl := hlive offset
      simp only [pageLive, hm] at hl
      obtain ⟨hstop, hne⟩ := hl
      simp only [hm]
      rw [if_neg hstop, if_neg (by simpa using hne)]
      refine ⟨(ih _ _ _).1, ?_⟩
      rw [countCalls_cons_call, countCalls_append, countCalls_sleeps, (ih _ _ _).2]
      omega

/-- Claim C4: for every pagination plan and page callback, if every fetched
page succeeds, parses, and triggers no mode-specific stop condition, the run
issues exactly the page cap's worth of fetches and returns the distinct
"pagination exceeded" error (a constructor different from every per-page
fetch or parse failure, as the trailing conjuncts state); in particular a
page cap of 1 against the two-page cursor fixture fails with `exceeded 1`
rather than returning a partial result. -/
theorem C4_page_cap_exceeded (plan : PaginationPlan) (iq : Option Values) (maxP : Int)
    (sleepMs : Nat) (doF : Values → Except String HttpResult)
    (hmode : plan.mode ≠ .none)
    (hlive : ∀ q : Values, ∃ r obj items, doF q = .ok r ∧ r.Body = some (.obj obj) ∧
      objGet obj plan.itemField = some (.arr items) ∧ ∀ off : Int, pageLive plan obj items off) :
    (fetchAll (some plan) iq maxP sleepMs doF).1 = .error (.exceeded (effMaxPages maxP)) ∧
    countCalls (fetchAll (some plan) iq maxP sleepMs doF).2 = (effMaxPages maxP).toNat ∧
    (fetchAll (some cursorPlan) (some []) 1 0 doCursorPages).1 = .error (.exceeded 1) ∧
    (∀ (n : Int) (s : String), FetchErr.exceeded n ≠ .pageErr s ∧
      FetchErr.exceeded n ≠ .missingField s ∧ FetchErr.exceeded n ≠ .notArray s) ∧
    (∀ n : Int, FetchErr.exceeded n ≠ .parseJSON ∧ FetchErr.exceeded n ≠ .notObject ∧
      FetchErr.exceeded n ≠ .missingPlan) := by
  rw [fetchAll_eq_loop plan hmode iq maxP sleepMs doF]
  obtain ⟨h1, h2⟩ := fetchAllLoop_live plan doF sleepMs (effMaxPages maxP) hlive
    (effMaxPages maxP).toNat (cloneValues (iq.getD []))
    (initialOffset plan (cloneValues (iq.getD []))) emptyPagResult
  refine ⟨h1, h2, rfl, ?_, ?_⟩
  · intro n s
    exact ⟨by simp, by simp, by simp⟩
  · intro n
    exact ⟨by simp, by simp, by simp⟩

/-- Witness for C4: the always-token cursor server with a page cap of 2
exhausts the budget after exactly two fetches. -/
theorem C4_page_cap_exceeded_witness :
    (fetchAll (some cursorPlan) (some []) 2 0 (fun _ => .ok cursorPageForever)).1 =
        .error (.exceeded 2) ∧
      countCalls (fetchAll (some cursorPlan) (some []) 2 0
        (fun _ => .ok cursorPageForever)).2 = 2 := by
  have h := C4_page_cap_exceeded cursorPlan (some []) 2 0 (fun _ => .ok cursorPageForever)
    (by decide)
    (fun q => ⟨cursorPageForever,
      [("accounts", .arr [.str "a"]), ("page", .obj [("nextPage", .str "t")])],
      [.str "a"], rfl, rfl, rfl, fun off => by
        simp only [pageLive, cursorPlan]
        decide⟩)
  exact ⟨h.1, h.2.1⟩

/-- Claim C3 counterexample: with `total = 0` and non-empty pages the code
keeps fetching even though the claim's stop condition "the running offset
reaches or exceeds the response's total field" already holds after the first
page (offset 1 ≥ total 0, first conjunct): a run capped at 3 pages issues
three requests (at offsets 0, 1 and 2) and ends in the page-cap error instead
of stopping after the first page. -/
theorem C3_counterexample :
    ((1 : Int) ≥ intFromAny (objGet [("transactions", JsonVal.arr [JsonVal.str "x"]),
        ("total", JsonVal.num 0)] "total")) ∧
    (fetchAll (some offsetPlan) (some []) 3 0 (fun _ => .ok offsetPageTotalZero)).2 =
      [.call [("offset", ["0"])], .call [("offset", ["1"])], .call [("offset", ["2"])]] ∧
    (fetchAll (some offsetPlan) (some []) 3 0 (fun _ => .ok offsetPageTotalZero)).1 =
      .error (.exceeded 3) := by
  exact ⟨by decide, rfl, rfl⟩

theorem effMaxPages_pos (m : Int) : 0 < effMaxPages m := by
  unfold effMaxPages
  split <;> omega

/-- One offset-mode iteration on a successful parsed page: the loop stops
with a single call event when the total is positive and the advanced offset
reaches it or the page is empty, and otherwise recurses at the advanced
offset after the call and the optional sleep. -/
theorem fetchAllLoop_offset_step (plan : PaginationPlan)
    (doF : Values → Except String HttpResult) (sleepMs : Nat) (maxP : Int) (fuel : Nat)
    (q : Values) (offset : Int) (res : PaginationResult) (r : HttpResult)
    (obj : List (String × JsonVal)) (items : List JsonVal)
    (hm : plan.mode = .offset)
    (hdo : doF (valuesSet q plan.queryParam (toString offset)) = .ok r)
    (hbody : r.Body = some (.obj obj))
    (hitems : objGet obj plan.itemField = some (.arr items)) :
    (((0 < intFromAny (objGet obj plan.totalField) ∧
        offset + (items.length : Int) ≥ intFromAny (objGet obj plan.totalField)) ∨
          items = []) →
      ∃ out, fetchAllLoop plan doF sleepMs maxP (fuel + 1) q offset res =
        (.ok out, [.call (valuesSet q plan.queryParam (toString offset))])) ∧
    (¬((0 < intFromAny (objGet obj plan.totalField) ∧
        offset + (items.length : Int) ≥ intFromAny (objGet obj plan.totalField)) ∨
          items = []) →
      ∃ res3, fetchAllLoop plan doF sleepMs maxP (fuel + 1) q offset res =
        ((fetchAllLoop plan doF sleepMs maxP fuel
            (valuesSet q plan.queryParam (toString offset))
            (offset + (items.length : Int)) res3).1,
          .call (valuesSet q plan.queryParam (toString offset)) ::
            ((if sleepMs > 0 then [FetchEvent.sleep] else []) ++
              (fetchAllLoop plan doF sleepMs maxP fuel
                (valuesSet q plan.queryParam (toString offset))
                (offset + (items.length : Int)) res3).2))) := by
  simp only [fetchAllLoop, hm, eq_self_iff_true, if_true, hdo, hbody, hitems]
  by_cases hstop : 0 < intFromAny (objGet obj plan.totalField) ∧
      offset + (items.length : Int) ≥ intFromAny (objGet obj plan.totalField)
  · rw [if_pos hstop]
    exact ⟨fun _ => ⟨_, rfl⟩, fun hno => absurd (Or.inl hstop) hno⟩
  · rw [if_neg hstop]
    by_cases hempty : items.length = 0
    · rw [if_pos hempty]
      exact ⟨fun _ => ⟨_, rfl⟩, fun hno => absurd (Or.inr (List.length_eq_zero.mp hempty)) hno⟩
    · rw [if_neg hempty]
      refine ⟨?_, fun _ => ⟨_, rfl⟩⟩
      rintro (h | h)
      · exact absurd h hstop
      · exact absurd (by rw [h]; rfl) hempty

/-- Claim C3 (amended): offset pagination starts the running offset at the
caller-supplied initial value (default 0), advances it after each page by the
count of items received, and stops exactly when the response's total is
positive and the running offset reaches or exceeds it, or when a page returns
zero items.  Conjuncts: (1) the concrete scenario — `total = 3`, two items at
offset 0, one at offset 2 — accumulates exactly 3 items over exactly two
requests, at offsets 0 and 2; (2) the initial offset is 0 for an empty query
and the parsed caller value otherwise, and every run's first fetch uses it;
(3) after a successful parsed page the loop stops (exactly one call in its
trace) iff the amended condition holds, and otherwise the next fetch is
issued at the offset advanced by the page's item count. -/
theorem C3_amended_offset_pagination :
    ((fetchAll (some offsetPlan) (some []) 1000 0 doOffsetPages).1 =
        .ok { Items := [.str "a", .str "b", .str "c"],
              LastObject := some [("transactions", .arr [.str "c"]), ("total", .num 3)],
              FirstTotal := some (.num 3), LastStatus := 200, LastHeaders := [] } ∧
      (fetchAll (some offsetPlan) (some []) 1000 0 doOffsetPages).2 =
        [.call [("offset", ["0"])], .call [("offset", ["2"])]]) ∧
    ((∀ p : PaginationPlan, initialOffset p [] = 0) ∧
      initialOffset offsetPlan [("offset", ["7"])] = 7 ∧
      (∀ (p : PaginationPlan) (hm : p.mode ≠ .none) (iq : Option Values) (maxP : Int)
          (sleepMs : Nat) (doF : Values → Except String HttpResult),
        ∃ tl, (fetchAll (some p) iq maxP sleepMs doF).2 =
          .call (if p.mode = .offset then
              valuesSet (cloneValues (iq.getD [])) p.queryParam
                (toString (initialOffset p (cloneValues (iq.getD []))))
            else cloneValues (iq.getD [])) :: tl)) ∧
    (∀ (plan : PaginationPlan) (doF : Values → Except String HttpResult) (sleepMs : Nat)
        (maxP : Int) (fuel : Nat) (q : Values) (offset : Int) (res : PaginationResult)
        (r : HttpResult) (obj : List (String × JsonVal)) (items : List JsonVal),
      plan.mode = .offset →
      doF (valuesSet q plan.queryParam (toString offset)) = .ok r →
      r.Body = some (.obj obj) →
      objGet obj plan.itemField = some (.arr items) →
      (((fetchAllLoop plan doF sleepMs maxP (fuel + 2) q offset res).2 =
          [.call (valuesSet q plan.queryParam (toString offset))]) ↔
        ((0 < intFromAny (objGet obj plan.totalField) ∧
            offset + (items.length : Int) ≥ intFromAny (objGet obj plan.totalField)) ∨
          items = [])) ∧
      (¬((0 < intFromAny (objGet obj plan.totalField) ∧
            offset + (items.length : Int) ≥ intFromAny (objGet obj plan.totalField)) ∨
          items = []) →
        ∃ tl, (fetchAllLoop plan doF sleepMs maxP (fuel + 2) q offset res).2 =
          .call (valuesSet q plan.queryParam (toString offset)) ::
            ((if sleepMs > 0 then [FetchEvent.sleep] else []) ++
              .call (valuesSet (valuesSet q plan.queryParam (toString offset)) plan.queryParam
                (toString (offset + (items.length : Int)))) :: tl))) := by
  refine ⟨⟨rfl, rfl⟩, ⟨?_, by decide, ?_⟩, ?_⟩
  · intro p
    simp [initialOffset, valuesGet]
  · intro p hm iq maxP sleepMs doF
    rw [fetchAll_eq_loop p hm iq maxP sleepMs doF]
    obtain ⟨k, hk⟩ : ∃ k, (effMaxPages maxP).toNat = k + 1 := by
      have := effMaxPages_pos maxP
      refine ⟨(effMaxPages maxP).toNat - 1, ?_⟩
      omega
    rw [hk]
    exact fetchAllLoop_trace_cons p doF sleepMs (effMaxPages maxP) k _ _ _
  · intro plan doF sleepMs maxP fuel q offset res r obj items hm hdo hbody hitems
    obtain ⟨hstep1, hstep2⟩ := fetchAllLoop_offset_step plan doF sleepMs maxP (fuel + 1)
      q offset res r obj items hm hdo hbody hitems
    constructor
    · constructor
      · intro htr
        by_contra hno
        obtain ⟨res3, heq⟩ := hstep2 hno
        rw [heq] at htr
        obtain ⟨tl2, hrest⟩ := fetchAllLoop_trace_cons plan doF sleepMs maxP fuel
          (valuesSet q plan.queryParam (toString offset)) (offset + (items.length : Int)) res3
        rw [hrest] at htr
        have := congrArg List.length htr
        simp at this
      · intro hor
        obtain ⟨out, heq⟩ := hstep1 hor
        rw [heq]
    · intro hno
      obtain ⟨res3, heq⟩ := hstep2 hno
      obtain ⟨tl2, hrest⟩ := fetchAllLoop_trace_cons plan doF sleepMs maxP fuel
        (valuesSet q plan.queryParam (toString offset)) (offset + (items.length : Int)) res3
      refine ⟨tl2, ?_⟩
      rw [heq, hrest, hm]
      simp

/-! ### `url.Values.Add` semantics -/

theorem any_eq_false_find?_none (m : Values) (k : String)
    (h : m.any (fun p => p.1 == k) = false) : m.find? (fun p => p.1 == k) = none := by
  rw [List.any_eq_false] at h
  rw [List.find?_eq_none]
  exact h

theorem find?_append_absent (m : Values) (k : String) (v : List String)
    (hf : m.find? (fun p => p.1 == k) = none) :
    (m ++ [(k, v)]).find? (fun p => p.1 == k) = some (k, v) := by
  induction m with
  | nil =>
    rw [List.nil_append]
    exact List.find?_cons_of_pos _ (by simp)
  | cons p t ih =>
    have hp : ¬((fun x : String × List String => x.1 == k) p = true) := by
      intro hc
      rw [List.find?_cons_of_pos (p := fun x : String × List String => x.1 == k) _ hc] at hf
      simp at hf
    rw [List.find?_cons_of_neg (p := fun x : String × List String => x.1 == k) _ hp] at hf
    rw [List.cons_append, List.find?_cons_of_neg (p := fun x : String × List String => x.1 == k) _ hp]
    exact ih hf

theorem getAll_map_add (m : Values) (k v : String) (h : m.any (fun p => p.1 == k) = true) :
    valuesGetAll (m.map (fun p => if p.1 == k then (p.1, p.2 ++ [v]) else p)) k =
      valuesGetAll m k ++ [v] := by
  induction m with
  | nil => simp at h
  | cons p t ih =>
    by_cases hp : p.1 = k
    · unfold valuesGetAll
      rw [List.map_cons, if_pos (by simpa using hp)]
      rw [List.find?_cons_of_pos _ (by simpa using hp),
        List.find?_cons_of_pos _ (by simpa using hp)]
    · have ht : t.any (fun x => x.1 == k) = true := by
        simp only [List.any_cons, Bool.or_eq_true] at h
        rcases h with h | h
        · exact absurd (by simpa using h) hp
        · exact h
      unfold valuesGetAll at ih ⊢
      rw [List.map_cons, if_neg (by simpa using hp)]
      rw [List.find?_cons_of_neg _ (by simpa using hp),
        List.find?_cons_of_neg _ (by simpa using hp)]
      exact ih ht

theorem valuesGetAll_add_same (m : Values) (k v : String) :
    valuesGetAll (valuesAdd m k v) k = valuesGetAll m k ++ [v] := by
  unfold valuesAdd
  by_cases h : m.any (fun p => p.1 == k) = true
  · rw [if_pos h]
    exact getAll_map_add m k v h
  · rw [if_neg h]
    have hf := any_eq_false_find?_none m k (by rwa [Bool.not_eq_true] at h)
    unfold valuesGetAll
    rw [hf, find?_append_absent m k [v] hf]
    rfl

theorem getAll_map_add_other (m : Values) (k v k' : String) (hk : k' ≠ k) :
    valuesGetAll (m.map (fun p => if p.1 == k then (p.1, p.2 ++ [v]) else p)) k' =
      valuesGetAll m k' := by
  induction m with
  | nil => rfl
  | cons p t ih =>
    unfold valuesGetAll at ih ⊢
    by_cases hp : p.1 = k
    · rw [List.map_cons, if_pos (by simpa using hp)]
      have hne : ¬((fun x : String × List String => x.1 == k') (p.1, p.2 ++ [v]) = true) := by
        simp only [beq_iff_eq]
        rw [hp]
        exact fun hc => hk hc.symm
      have hne2 : ¬((fun x : String × List String => x.1 == k') p = true) := by
        simp only [beq_iff_eq]
        rw [hp]
        exact fun hc => hk hc.symm
      rw [List.find?_cons_of_neg (p := fun x : String × List String => x.1 == k') _ hne]
      rw [List.find?_cons_of_neg (p := fun x : String × List String => x.1 == k') _ hne2]
      exact ih
    · rw [List.map_cons, if_neg (by simpa using hp)]
      by_cases hp' : ((fun x : String × List String => x.1 == k') p = true)
      · rw [List.find?_cons_of_pos (p := fun x : String × List String => x.1 == k') _ hp',
          List.find?_cons_of_pos (p := fun x : String × List String => x.1 == k') _ hp']
      · rw [List.find?_cons_of_neg (p := fun x : String × List String => x.1 == k') _ hp',
          List.find?_cons_of_neg (p := fun x : String × List String => x.1 == k') _ hp']
        exact ih

theorem valuesGetAll_add_other (m : Values) (k v k' : String) (hk : k' ≠ k) :
    valuesGetAll (valuesAdd m k v) k' = valuesGetAll m k' := by
  unfold valuesAdd
  by_cases h : m.any (fun p => p.1 == k) = true
  · rw [if_pos h]
    exact getAll_map_add_other m k v k' hk
  · rw [if_neg h]
    clear h
    unfold valuesGetAll
    have hfind : ((m ++ [(k, [v])]).find? (fun p => p.1 == k')) =
        m.find? (fun p => p.1 == k') := by
      induction m with
      | nil =>
        have hkk : ¬((fun x : String × List String => x.1 == k') (k, [v]) = true) := by
          simpa using fun hc => hk hc.symm
        rw [List.nil_append,
          List.find?_cons_of_neg (p := fun x : String × List String => x.1 == k') _ hkk]
      | cons p t ih2 =>
        by_cases hp' : ((fun x : String × List String => x.1 == k') p = true)
        · rw [List.cons_append,
            List.find?_cons_of_pos (p := fun x : String × List String => x.1 == k') _ hp',
            List.find?_cons_of_pos (p := fun x : String × List String => x.1 == k') _ hp']
        · rw [List.cons_append,
            List.find?_cons_of_neg (p := fun x : String × List String => x.1 == k') _ hp',
            List.find?_cons_of_neg (p := fun x : String × List String => x.1 == k') _ hp']
          exact ih2
    rw [hfind]

theorem getAll_fold_add (vs : List String) (m : Values) (k : String) :
    valuesGetAll (vs.foldl (fun acc v => valuesAdd acc k v) m) k =
      valuesGetAll m k ++ vs := by
  induction vs generalizing m with
  | nil => simp
  | cons v vs ih =>
    rw [List.foldl_cons, ih, valuesGetAll_add_same]
    simp

theorem getAll_fold_add_other (vs : List String) (m : Values) (k k' : String) (hk : k' ≠ k) :
    valuesGetAll (vs.foldl (fun acc v => valuesAdd acc k v) m) k' = valuesGetAll m k' := by
  induction vs generalizing m with
  | nil => rfl
  | cons v vs ih =>
    rw [List.foldl_cons, ih, valuesGetAll_add_other m k v k' hk]

/-- Claim C6: a bound query or header parameter contributes to the outbound
query string or header map iff the caller explicitly set one of its flags —
the canonical kebab-case name or the raw-name alias (registered only when the
two differ).  An unset binding leaves both maps untouched whatever the
backing values hold — including the `nil` array a repeated-string flag is
registered with — and a set binding appends exactly its rendered value list
(non-empty: one rendered value for scalar kinds, and cobra appends one
element per occurrence of a string-array flag, so its array holds at least
one element once the flag was set, hypothesis `hsa`) under the declared
parameter name, leaving every other key unchanged. -/
theorem C6_binding_contributes_iff_set (b : ParamBinding) (changed : String → Bool)
    (q h : Values)
    (hnames : b.flagNames = mkFlagNames b.param.Name)
    (hsa : b.kind = .stringArray → bindingChanged b changed = true → b.sa ≠ []) :
    (bindingChanged b changed = true ↔
      (changed (kebabCase b.param.Name) = true ∨
        (kebabCase b.param.Name ≠ b.param.Name ∧ changed b.param.Name = true))) ∧
    (bindingChanged b changed = false →
      addToQuery b changed q = q ∧ addToHeaders b changed h = h) ∧
    (bindingChanged b changed = true →
      valuesAsStrings b ≠ [] ∧
      valuesGetAll (addToQuery b changed q) b.param.Name =
        valuesGetAll q b.param.Name ++ valuesAsStrings b ∧
      valuesGetAll (addToHeaders b changed h) b.param.Name =
        valuesGetAll h b.param.Name ++ valuesAsStrings b ∧
      (∀ k, k ≠ b.param.Name →
        valuesGetAll (addToQuery b changed q) k = valuesGetAll q k ∧
        valuesGetAll (addToHeaders b changed h) k = valuesGetAll h k)) := by
  refine ⟨?_, ?_, ?_⟩
  · rw [bindingChanged, hnames, mkFlagNames]
    by_cases hne : kebabCase b.param.Name ≠ b.param.Name
    · rw [if_pos hne]
      simp only [List.any_cons, List.any_nil, Bool.or_false, Bool.or_eq_true]
      constructor
      · rintro (hc | hc)
        · exact Or.inl hc
        · exact Or.inr ⟨hne, hc⟩
      · rintro (hc | ⟨_, hc⟩)
        · exact Or.inl hc
        · exact Or.inr hc
    · rw [if_neg hne]
      push_neg at hne
      simp only [List.any_cons, List.any_nil, Bool.or_false]
      constructor
      · intro hc
        exact Or.inl hc
      · rintro (hc | ⟨hd, _⟩)
        · exact hc
        · exact absurd hne hd
  · intro hch
    constructor
    · rw [addToQuery, hch]
      rfl
    · rw [addToHeaders, hch]
      rfl
  · intro hch
    have hvne : valuesAsStrings b ≠ [] := by
      rw [valuesAsStrings]
      cases hk : b.kind
      case stringArray => exact hsa hk hch
      all_goals simp
    refine ⟨hvne, ?_, ?_, ?_⟩
    · rw [addToQuery, hch]
      simp only [Bool.not_true, Bool.false_eq_true, if_false]
      exact getAll_fold_add (valuesAsStrings b) q b.param.Name
    · rw [addToHeaders, hch]
      simp only [Bool.not_true, Bool.false_eq_true, if_false]
      exact getAll_fold_add (valuesAsStrings b) h b.param.Name
    · intro k hk
      constructor
      · rw [addToQuery, hch]
        simp only [Bool.not_true, Bool.false_eq_true, if_false]
        exact getAll_fold_add_other (valuesAsStrings b) q b.param.Name k hk
      · rw [addToHeaders, hch]
        simp only [Bool.not_true, Bool.false_eq_true, if_false]
        exact getAll_fold_add_other (valuesAsStrings b) h b.param.Name k hk

/-- Witness for C6: the concrete `start_after` string binding, set through
its raw-name alias, contributes exactly its value; unset, it contributes
nothing — and so does an unset repeated-string binding still holding the
`nil` default array. -/
theorem C6_binding_contributes_iff_set_witness :
    (valuesGetAll (addToQuery bindFix (fun n => n == "start_after") []) "start_after" =
        ["abc"] ∧
      addToQuery bindFix (fun _ => false) [("x", ["1"])] = [("x", ["1"])]) ∧
    addToQuery bindFixArr (fun _ => false) [("x", ["1"])] = [("x", ["1"])] := by
  have h1 := C6_binding_contributes_iff_set bindFix (fun n => n == "start_after") [] []
    rfl (fun hk => absurd hk (by decide))
  have h2 := C6_binding_contributes_iff_set bindFix (fun _ => false) [("x", ["1"])] []
    rfl (fun hk => absurd hk (by decide))
  have h3 := C6_binding_contributes_iff_set bindFixArr (fun _ => false) [("x", ["1"])] []
    rfl (fun _ hch => absurd hch (by decide))
  refine ⟨⟨?_, ?_⟩, ?_⟩
  · have := (h1.2.2 (by decide)).2.1
    simpa [valuesGetAll, valuesAsStrings, bindFix] using this
  · exact (h2.2.1 (by decide)).1
  · exact (h3.2.1 (by decide)).1

/-- Claim C7 counterexample: the charset-loose content-type match is
one-directional, not bidirectional.  A declared charset-suffixed JSON type
accepts the bare `application/json` override (first conjunct), but a bare
declared `application/json` rejects the charset-suffixed override (second),
and a build with that override fails with the unsupported-content-type error
(third) even though the claim's bidirectional relation counts the pair as
matching. -/
theorem C7_counterexample :
    supportsContentType ["application/json;charset=utf-8"] "application/json" = true ∧
    supportsContentType ["application/json"] "application/json;charset=utf-8" = false ∧
    buildBody bodyFixJsonCharset (fun _ => none) "" "b" =
      .error (.unsupportedContentType "application/json;charset=utf-8") := by
  exact ⟨by decide, by decide, rfl⟩

/-- Claim C7 (amended): an explicit `--content-type` override must be one of
the operation's declared content types under a one-directional loosened
match: the override matches a declared type equal to it, or — for
`application/json` variants — a declared type that extends the override with
a suffix such as a charset parameter (declared
`application/json;charset=utf-8` accepts override `application/json`; the
converse is rejected).  A non-empty override failing this check makes the
build fail with the unsupported-content-type error for every file system,
standard input and multipart boundary — i.e. before any body is produced —
an override that trims to empty fails with the distinct empty-content-type
error, and every successful build with an override implies the check
passed. -/
theorem C7_amended_content_type_override :
    (∀ (supported : List String) (ct : String),
      supportsContentType supported ct = true ↔
        ∃ s ∈ supported, s = ct ∨
          (goHasPrefix s ct = true ∧ goHasPrefix s "application/json" = true ∧
            goHasPrefix ct "application/json" = true)) ∧
    (∀ (b : BodyFlags) (fs : String → Option String) (stdin boundary : String),
      b.ctChanged = true →
      strTrimSpace b.contentType ≠ "" →
      supportsContentType b.supportedContentTypes (strTrimSpace b.contentType) = false →
      buildBody b fs stdin boundary =
        .error (.unsupportedContentType (strTrimSpace b.contentType))) ∧
    (∀ (b : BodyFlags) (fs : String → Option String) (stdin boundary : String),
      b.ctChanged = true →
      strTrimSpace b.contentType = "" →
      buildBody b fs stdin boundary = .error .emptyContentType) ∧
    (∀ (b : BodyFlags) (fs : String → Option String) (stdin boundary : String)
        (out : BodyOut × String),
      b.ctChanged = true →
      buildBody b fs stdin boundary = .ok out →
      supportsContentType b.supportedContentTypes (strTrimSpace b.contentType) = true) := by
  refine ⟨?_, ?_, ?_, ?_⟩
  · intro supported ct
    simp only [supportsContentType, List.any_eq_true, Bool.or_eq_true, Bool.and_eq_true,
      beq_iff_eq]
    constructor
    · rintro ⟨s, hs, hor⟩
      refine ⟨s, hs, ?_⟩
      tauto
    · rintro ⟨s, hs, hor⟩
      refine ⟨s, hs, ?_⟩
      tauto
  · intro b fs stdin boundary hct hne hsup
    rw [buildBody, if_pos hct, if_neg hne, if_pos hsup]
  · intro b fs stdin boundary hct hemp
    rw [buildBody, if_pos hct, if_pos hemp]
  · intro b fs stdin boundary out hct hok
    rw [buildBody, if_pos hct] at hok
    by_cases hemp : strTrimSpace b.contentType = ""
    · rw [if_pos hemp] at hok
      exact absurd hok (by simp)
    · rw [if_neg hemp] at hok
      by_cases hsup : supportsContentType b.supportedContentTypes
          (strTrimSpace b.contentType) = false
      · rw [if_pos hsup] at hok
        exact absurd hok (by simp)
      · cases hval : supportsContentType b.supportedContentTypes (strTrimSpace b.contentType)
        · exact absurd hval hsup
        · rfl

/-! ### Registration lemmas -/

theorem seenLookup_append (seen : List (String × String × GenOp)) (G C : String) (x : GenOp)
    (g c : String) :
    seenLookup (seen ++ [(G, C, x)]) g c = none ↔
      seenLookup seen g c = none ∧ ¬(g = G ∧ c = C) := by
  unfold seenLookup
  induction seen with
  | nil =>
    rw [List.nil_append]
    by_cases hp : ((fun e : String × String × GenOp => e.1 == g && e.2.1 == c) (G, C, x) = true)
    · rw [List.find?_cons_of_pos
        (p := fun e : String × String × GenOp => e.1 == g && e.2.1 == c) _ hp]
      simp only [Bool.and_eq_true, beq_iff_eq] at hp
      simp [hp]
    · rw [List.find?_cons_of_neg
        (p := fun e : String × String × GenOp => e.1 == g && e.2.1 == c) _ hp]
      simp only [Bool.and_eq_true, beq_iff_eq] at hp
      constructor
      · intro _
        exact ⟨rfl, fun hc => hp ⟨hc.1.symm, hc.2.symm⟩⟩
      · intro _
        rfl
  | cons e t ih =>
    by_cases hp : ((fun e : String × String × GenOp => e.1 == g && e.2.1 == c) e = true)
    · rw [List.cons_append,
        List.find?_cons_of_pos (p := fun e : String × String × GenOp => e.1 == g && e.2.1 == c) _ hp,
        List.find?_cons_of_pos (p := fun e : String × String × GenOp => e.1 == g && e.2.1 == c) _ hp]
      simp
    · rw [List.cons_append,
        List.find?_cons_of_neg (p := fun e : String × String × GenOp => e.1 == g && e.2.1 == c) _ hp,
        List.find?_cons_of_neg (p := fun e : String × String × GenOp => e.1 == g && e.2.1 == c) _ hp]
      exact ih

/-- The registration loop succeeds iff no two remaining operations share a
(group, command) key and none collides with the seen set. -/
theorem registerLoop_ok_iff (l : List GenOp) :
    ∀ seen : List (String × String × GenOp),
      (∀ g ∈ l, opBuildError g.op = none) →
      (registerLoop l seen = .ok () ↔
        (List.Pairwise (fun a b => ¬(a.groupName = b.groupName ∧ a.cmdName = b.cmdName)) l ∧
          ∀ g ∈ l, seenLookup seen g.groupName g.cmdName = none)) := by
  induction l with
  | nil =>
    intro seen _
    simp [registerLoop]
  | cons g rest ih =>
    intro seen hbuild
    rw [registerLoop]
    cases hlook : seenLookup seen g.groupName g.cmdName with
    | some prev =>
      apply iff_of_false
      · intro hc
        simp at hc
      · rintro ⟨_, hall⟩
        rw [hall g (List.mem_cons_self g rest)] at hlook
        simp at hlook
    | none =>
      rw [hbuild g (List.mem_cons_self g rest)]
      rw [ih (seen ++ [(g.groupName, g.cmdName, g)])
        (fun x hx => hbuild x (List.mem_cons_of_mem g hx))]
      constructor
      · rintro ⟨hp, hall⟩
        constructor
        · rw [List.pairwise_cons]
          refine ⟨?_, hp⟩
          intro x hx hkey
          have := (seenLookup_append seen g.groupName g.cmdName g x.groupName x.cmdName).mp
            (hall x hx)
          exact this.2 ⟨hkey.1.symm, hkey.2.symm⟩
        · intro x hx
          rcases List.mem_cons.mp hx with hx1 | hx2
          · rw [hx1]
            exact hlook
          · exact ((seenLookup_append seen g.groupName g.cmdName g x.groupName
              x.cmdName).mp (hall x hx2)).1
      · rintro ⟨hp, hall⟩
        rw [List.pairwise_cons] at hp
        constructor
        · exact hp.2
        · intro x hx
          apply (seenLookup_append seen g.groupName g.cmdName g x.groupName x.cmdName).mpr
          refine ⟨hall x (List.mem_cons_of_mem g hx), ?_⟩
          intro hc
          exact hp.1 x hx ⟨hc.1.symm, hc.2.symm⟩

theorem opBuildError_not_dup (op : RawOp) (c g m1 p1 m2 p2 : String) :
    opBuildError op ≠ some (.duplicateCommand c g m1 p1 m2 p2) := by
  unfold opBuildError
  split
  · simp
  · split
    · split <;> simp
    · simp

/-- When the registration loop reports a duplicate command, both reported
(method, path) pairs belong to operations with that (group, command) key —
the current one from the remaining list, the previous one from the list or
the seen set. -/
theorem registerLoop_dup (l : List GenOp) :
    ∀ (seen : List (String × String × GenOp)) (c g m1 p1 m2 p2 : String),
      (∀ e ∈ seen, e.2.2.groupName = e.1 ∧ e.2.2.cmdName = e.2.1) →
      registerLoop l seen = .error (.duplicateCommand c g m1 p1 m2 p2) →
      ((∃ x ∈ l, x.groupName = g ∧ x.cmdName = c ∧ x.method = m1 ∧ x.path = p1) ∧
        (∃ x, (x ∈ l ∨ x ∈ seen.map (fun e => e.2.2)) ∧ x.groupName = g ∧ x.cmdName = c ∧
          x.method = m2 ∧ x.path = p2)) := by
  induction l with
  | nil =>
    intro seen c g m1 p1 m2 p2 _ h
    simp [registerLoop] at h
  | cons x rest ih =>
    intro seen c g m1 p1 m2 p2 hseen h
    rw [registerLoop] at h
    cases hlook : seenLookup seen x.groupName x.cmdName with
    | some prev =>
      rw [hlook] at h
      simp only [Except.error.injEq, GenErr.duplicateCommand.injEq] at h
      obtain ⟨hc, hg, hm1, hp1, hm2, hp2⟩ := h
      obtain ⟨e, hemem, hefind⟩ : ∃ e ∈ seen,
          ((fun e : String × String × GenOp => e.1 == x.groupName && e.2.1 == x.cmdName) e)
            = true ∧ e.2.2 = prev := by
        unfold seenLookup at hlook
        cases hfind : seen.find?
            (fun e => e.1 == x.groupName && e.2.1 == x.cmdName) with
        | none => rw [hfind] at hlook; simp at hlook
        | some e =>
          rw [hfind] at hlook
          refine ⟨e, List.mem_of_find?_eq_some hfind,
            List.find?_some
              (p := fun e : String × String × GenOp =>
                e.1 == x.groupName && e.2.1 == x.cmdName) hfind, ?_⟩
          simpa using hlook
      constructor
      · exact ⟨x, List.mem_cons_self x rest, hg ▸ rfl, hc ▸ rfl, hm1 ▸ rfl, hp1 ▸ rfl⟩
      · obtain ⟨hkey, hval⟩ := hefind
        simp only [Bool.and_eq_true, beq_iff_eq] at hkey
        have he := hseen e hemem
        refine ⟨prev, Or.inr ?_, ?_, ?_, hm2 ▸ rfl, hp2 ▸ rfl⟩
        · rw [← hval]
          exact List.mem_map_of_mem _ hemem
        · rw [← hval, he.1, hkey.1, hg]
        · rw [← hval, he.2, hkey.2, hc]
    | none =>
      rw [hlook] at h
      cases hb : opBuildError x.op with
      | some e =>
        rw [hb] at h
        simp only [Except.error.injEq] at h
        rw [h] at hb
        exact absurd hb (opBuildError_not_dup x.op c g m1 p1 m2 p2)
      | none =>
        rw [hb] at h
        have hseen' : ∀ e ∈ seen ++ [(x.groupName, x.cmdName, x)],
            e.2.2.groupName = e.1 ∧ e.2.2.cmdName = e.2.1 := by
          intro e he
          rcases List.mem_append.mp he with h1 | h1
          · exact hseen e h1
          · simp only [List.mem_singleton] at h1
            rw [h1]
            exact ⟨rfl, rfl⟩
        obtain ⟨hcur, hprev⟩ := ih (seen ++ [(x.groupName, x.cmdName, x)]) c g m1 p1 m2 p2
          hseen' h
        constructor
        · obtain ⟨y, hy, hrest⟩ := hcur
          exact ⟨y, List.mem_cons_of_mem x hy, hrest⟩
        · obtain ⟨y, hy, hrest⟩ := hprev
          refine ⟨y, ?_, hrest⟩
          rcases hy with h1 | h1
          · exact Or.inl (List.mem_cons_of_mem x h1)
          · rw [List.map_append] at h1
            rcases List.mem_append.mp h1 with h2 | h2
            · exact Or.inr h2
            · simp only [List.map_cons, List.map_nil, List.mem_singleton] at h2
              rw [h2]
              exact Or.inl (List.mem_cons_self x rest)

/-- Claim C1: with every operation id non-blank and no unsupported `$ref`
(the only other generation-failure sources), command generation succeeds iff
no two operations share both the canonicalized group (first tag) and the
canonicalized command name (operation id); a reported duplicate-command
error carries the (method, path) pairs of two operations of that very
(group, command) key.  Concretely, two `listItems` operations under
different tags both register, while `listItems` and `list_items` under the
same tag — identical after canonicalization — fail with the duplicate error
naming both (method, path) pairs. -/
theorem C1_duplicate_command_detection (docName : String) (ops : List RawOp)
    (hids : ∀ op ∈ ops, ¬strTrimSpace op.operationId = "")
    (hrefs : ∀ op ∈ ops, opBuildError op = none) :
    (addOpenAPICommands docName ops = .ok () ↔
      List.Pairwise (fun a b => ¬((mkGenOp a).groupName = (mkGenOp b).groupName ∧
        (mkGenOp a).cmdName = (mkGenOp b).cmdName)) ops) ∧
    (∀ c g m1 p1 m2 p2 : String, addOpenAPICommands docName ops =
        .error (.duplicateCommand c g m1 p1 m2 p2) →
      (∃ op ∈ ops, (mkGenOp op).groupName = g ∧ (mkGenOp op).cmdName = c ∧
        op.method = m1 ∧ op.path = p1) ∧
      (∃ op ∈ ops, (mkGenOp op).groupName = g ∧ (mkGenOp op).cmdName = c ∧
        op.method = m2 ∧ op.path = p2)) ∧
    addOpenAPICommands "d" [rawOpA, rawOpB] = .ok () ∧
    addOpenAPICommands "d" [rawOpA, rawOpC] =
      .error (.duplicateCommand "list-items" "accounts" "POST" "/b" "GET" "/a") := by
  have hfind : ops.find? (fun op => strTrimSpace op.operationId == "") = none :=
    List.find?_eq_none.mpr (fun x hx => by simpa using hids x hx)
  have hbuild : ∀ x ∈ List.insertionSort genOpLeP (ops.map mkGenOp),
      opBuildError x.op = none := by
    intro x hx
    have hx2 : x ∈ ops.map mkGenOp := (List.perm_insertionSort genOpLeP _).mem_iff.mp hx
    obtain ⟨op, hop, rfl⟩ := List.mem_map.mp hx2
    exact hrefs op hop
  refine ⟨?_, ?_, rfl, rfl⟩
  · rw [addOpenAPICommands, hfind]
    rw [registerLoop_ok_iff _ [] hbuild]
    have hperm := List.perm_insertionSort genOpLeP (ops.map mkGenOp)
    rw [hperm.pairwise_iff (fun hxy hc => hxy ⟨hc.1.symm, hc.2.symm⟩)]
    rw [List.pairwise_map]
    constructor
    · rintro ⟨hp, _⟩
      exact hp
    · intro hp
      exact ⟨hp, fun g _ => rfl⟩
  · intro c g m1 p1 m2 p2 hdup
    rw [addOpenAPICommands, hfind] at hdup
    obtain ⟨⟨x, hx, hx1, hx2, hx3, hx4⟩, ⟨y, hy, hy1, hy2, hy3, hy4⟩⟩ :=
      registerLoop_dup _ [] c g m1 p1 m2 p2 (by simp) hdup
    have hxmem : x ∈ ops.map mkGenOp :=
      (List.perm_insertionSort genOpLeP _).mem_iff.mp hx
    obtain ⟨opx, hopx, rfl⟩ := List.mem_map.mp hxmem
    have hymem : y ∈ ops.map mkGenOp := by
      rcases hy with h1 | h1
      · exact (List.perm_insertionSort genOpLeP _).mem_iff.mp h1
      · simp at h1
    obtain ⟨opy, hopy, rfl⟩ := List.mem_map.mp hymem
    exact ⟨⟨opx, hopx, hx1, hx2, hx3, hx4⟩, ⟨opy, hopy, hy1, hy2, hy3, hy4⟩⟩

/-- Witness for C1 at the concrete fixtures: same command name in different
groups registers; same command name in the same group fails, naming both
conflicting (method, path) pairs. -/
theorem C1_duplicate_command_detection_witness :
    addOpenAPICommands "d" [rawOpA, rawOpB] = .ok () ∧
    addOpenAPICommands "d" [rawOpA, rawOpC] =
      .error (.duplicateCommand "list-items" "accounts" "POST" "/b" "GET" "/a") := by
  have h := C1_duplicate_command_detection "d" [rawOpA, rawOpC]
    (by decide) (by decide)
  exact ⟨h.2.2.1, h.2.2.2⟩

/-- Claim C9: invoking a command that has a detected pagination plan with
`--all` set fails whenever the method is not GET, and no HTTP request is
issued, for every oracle behavior; when the pre-flight steps (runtime,
token, base URL, path join) succeed, the error is exactly the
"--all is only supported for GET operations" one. -/
theorem C9_all_requires_get (cfg : CmdConfig) (oracle : RunOracle)
    (hplan : cfg.plan.isSome = true) (hall : cfg.allFlag = true)
    (hm : cfg.method ≠ "GET") :
    (∃ e, (runE cfg oracle).1 = .error e) ∧
    (runE cfg oracle).2 = [] ∧
    (∀ (rt : Runtime) (baseURL : String),
      oracle.runtime = .ok rt →
      (cfg.requiresAuth && (strTrimSpace rt.Token == "")) = false →
      (if strTrimSpace rt.BaseURL == "" then
          (if strTrimSpace oracle.serverURLForOp == "" then
            Except.error "no server URL found"
          else oracle.applyEnv (strTrimSpace oracle.serverURLForOp) rt.Env)
        else .ok (strTrimSpace rt.BaseURL) : Except String String) = .ok baseURL →
      (∃ endpoint, oracle.joinBase baseURL (expandPath oracle.replaceAll oracle.pathEscape
        cfg.pathTemplate (extractPathParams cfg.pathTemplate) cfg.args) = .ok endpoint) →
      (runE cfg oracle).1 = .error "--all is only supported for GET operations") := by
  have hmain : (∃ e, (runE cfg oracle).1 = .error e) ∧ (runE cfg oracle).2 = [] := by
    unfold runE
    repeat' split
    all_goals first
      | exact ⟨⟨_, rfl⟩, rfl⟩
      | simp_all
    rename_i ep h1 h2 h3
    cases oracle.joinBase ep (expandPath oracle.replaceAll oracle.pathEscape
        cfg.pathTemplate (extractPathParams cfg.pathTemplate) cfg.args) <;>
      exact ⟨⟨_, rfl⟩, rfl⟩
  refine ⟨hmain.1, hmain.2, ?_⟩
  rintro rt baseURL hrt htok hbase ⟨endpoint, hjoin⟩
  simp only [runE, hrt, htok, Bool.false_eq_true, if_false, hbase, hjoin, hplan, hall,
    Bool.and_self, if_true]
  rw [if_pos hm]

/-- Witness for C9: the POST-with-plan fixture under the all-success oracle
fails with the `--all` error and issues no request. -/
theorem C9_all_requires_get_witness :
    (runE cfgPostAll oracleFix).1 = .error "--all is only supported for GET operations" ∧
    (runE cfgPostAll oracleFix).2 = [] := by
  have h := C9_all_requires_get cfgPostAll oracleFix rfl rfl (by decide)
  refine ⟨?_, h.2.1⟩
  exact h.2.2 { Env := "prod", BaseURL := "http://api.test", Token := "t", Auth := "bearer" }
    "http://api.test" rfl rfl rfl ⟨"http://api.test/x", rfl⟩

/-! ### Heap lemmas and the frame property of `fetchAll` -/

theorem heapGet_heapSet_ne : ∀ (h : VHeap) (q r : Nat) (v : Values), r ≠ q →
    heapGet (heapSet h q v) r = heapGet h r
  | [], _, _, _, _ => rfl
  | _ :: _, 0, 0, _, hne => absurd rfl hne
  | _ :: _, 0, _ + 1, _, _ => rfl
  | _ :: _, _ + 1, 0, _, _ => rfl
  | _ :: t, q + 1, r + 1, v, hne =>
    heapGet_heapSet_ne t q r v (fun e => hne (by omega))

theorem heapGet_heapSet_eq : ∀ (h : VHeap) (q : Nat) (v : Values), q < h.length →
    heapGet (heapSet h q v) q = v
  | [], _, _, hq => absurd hq (by simp)
  | _ :: _, 0, _, _ => rfl
  | _ :: t, q + 1, v, hq => heapGet_heapSet_eq t q v (by simp at hq; omega)

theorem heapGet_append_lt : ∀ (h h' : VHeap) (r : Nat), r < h.length →
    heapGet (h ++ h') r = heapGet h r
  | [], _, _, hr => absurd hr (by simp)
  | _ :: _, _, 0, _ => rfl
  | _ :: t, h', r + 1, hr => heapGet_append_lt t h' r (by simp at hr; omega)

theorem heapGet_append_self : ∀ (h : VHeap) (v : Values), heapGet (h ++ [v]) h.length = v
  | [], _ => rfl
  | _ :: t, v => heapGet_append_self t v

theorem heapSet_length (h : VHeap) (q : Nat) (v : Values) :
    (heapSet h q v).length = h.length := by
  simp [heapSet]

/-- The loop writes only through its own reference `q`: every other heap
cell is untouched, whatever the run's outcome. -/
theorem fetchAllLoopRef_frame (plan : PaginationPlan) (doF : Values → Except String HttpResult)
    (sleepMs : Nat) (maxP : Int) :
    ∀ (fuel : Nat) (h : VHeap) (q : Nat) (offset : Int) (res : PaginationResult) (r : Nat),
      r ≠ q →
      heapGet (fetchAllLoopRef plan doF sleepMs maxP fuel h q offset res).2 r = heapGet h r := by
  intro fuel
  induction fuel with
  | zero => intro h q offset res r hne; rfl
  | succ fuel ih =>
    intro h q offset res r hne
    simp only [fetchAllLoopRef]
    repeat' split
    all_goals first
      | rfl
      | rw [ih _ _ _ _ _ hne, heapGet_heapSet_ne _ _ _ _ hne, heapGet_heapSet_ne _ _ _ _ hne]
      | rw [ih _ _ _ _ _ hne, heapGet_heapSet_ne _ _ _ _ hne]
      | rw [ih _ _ _ _ _ hne]
      | rw [heapGet_heapSet_ne _ _ _ _ hne]

/-- The heap-model loop refines the pure loop: run on a live reference, it
computes exactly `fetchAllLoop` of the cell's initial contents. -/
theorem fetchAllLoopRef_eq_loop (plan : PaginationPlan) (doF : Values → Except String HttpResult)
    (sleepMs : Nat) (maxP : Int) :
    ∀ (fuel : Nat) (h : VHeap) (q : Nat) (offset : Int) (res : PaginationResult),
      q < h.length →
      (fetchAllLoopRef plan doF sleepMs maxP fuel h q offset res).1 =
        fetchAllLoop plan doF sleepMs maxP fuel (heapGet h q) offset res := by
  intro fuel
  induction fuel with
  | zero => intro h q offset res hq; rfl
  | succ fuel ih =>
    intro h q offset res hq
    have hq1 : heapGet (if plan.mode = .offset then
          heapSet h q (valuesSet (heapGet h q) plan.queryParam (toString offset)) else h) q =
        (if plan.mode = .offset then
          valuesSet (heapGet h q) plan.queryParam (toString offset) else heapGet h q) := by
      split
      · exact heapGet_heapSet_eq h q _ hq
      · rfl
    simp only [fetchAllLoopRef, fetchAllLoop, hq1]
    repeat' split
    all_goals first
      | rfl
      | (rw [ih _ _ _ _ (by
            repeat rw [heapSet_length]
            exact hq)]
         try rw [heapGet_heapSet_eq _ _ _ (by
            repeat rw [heapSet_length]
            exact hq)])

/-- Claim C10: `fetchAll` never mutates the caller-supplied initial query
map.  On the heap model, every pre-existing cell — in particular the cell
holding the caller's map — has exactly the same keys and value lists after
the call as before it, whether the run succeeds or errors; and the run
computes the same result and trace as the pure model applied to the map's
initial contents, i.e. the deep copy, not the caller's map, absorbs every
pagination parameter update. -/
theorem C10_fetchAll_frame (plan : Option PaginationPlan) (h0 : VHeap)
    (initialQuery : Option Nat) (maxPages : Int) (sleepMs : Nat)
    (doF : Values → Except String HttpResult) (r : Nat) (hr : r < h0.length) :
    heapGet (fetchAllRef plan h0 initialQuery maxPages sleepMs doF).2 r = heapGet h0 r ∧
    (fetchAllRef plan h0 initialQuery maxPages sleepMs doF).1 =
      fetchAll plan (initialQuery.map (heapGet h0)) maxPages sleepMs doF := by
  cases plan with
  | none => exact ⟨rfl, rfl⟩
  | some plan =>
    by_cases hmode : plan.mode = .none
    · constructor
      · simp [fetchAllRef, hmode]
      · simp [fetchAllRef, fetchAll, hmode]
    · cases initialQuery with
      | some r0 =>
        simp only [fetchAllRef, fetchAll, heapAlloc, if_neg hmode, Option.map, Option.getD]
        constructor
        · rw [fetchAllLoopRef_frame plan doF sleepMs _ _ _ _ _ _ r (by omega),
            heapGet_append_lt _ _ _ hr]
        · rw [fetchAllLoopRef_eq_loop plan doF sleepMs _ _ _ _ _ _ (by simp)]
          simp only [heapGet_append_self]
      | none =>
        simp only [fetchAllRef, fetchAll, heapAlloc, if_neg hmode, Option.map, Option.getD]
        constructor
        · rw [fetchAllLoopRef_frame plan doF sleepMs _ _ _ _ _ _ r
              (by simp; omega),
            heapGet_append_lt _ _ _ (by simp; omega), heapGet_append_lt _ _ _ hr]
        · rw [fetchAllLoopRef_eq_loop plan doF sleepMs _ _ _ _ _ _ (by simp)]
          simp only [heapGet_append_self]

/-- Witness for C10: a one-cell heap holding `\x7b"k": ["v"]\x7d`, run through
the two-page offset scenario: the caller's cell is unchanged and the heap
run agrees with the pure run. -/
theorem C10_fetchAll_frame_witness :
    heapGet (fetchAllRef (some offsetPlan) [[("k", ["v"])]] (some 0) 0 0 doOffsetPages).2 0 =
      [("k", ["v"])] ∧
    (fetchAllRef (some offsetPlan) [[("k", ["v"])]] (some 0) 0 0 doOffsetPages).1 =
      fetchAll (some offsetPlan) (some [("k", ["v"])]) 0 0 doOffsetPages := by
  have h := C10_fetchAll_frame (some offsetPlan) [[("k", ["v"])]] (some 0) 0 0 doOffsetPages 0
    (by decide)
  exact ⟨h.1, h.2⟩

example : kebabCase "camelCaseID" = "camel-case-id" := by decide
example : kebabCase "start_after" = "start-after" := by decide
example : kebabCase "  Read Webhooks  " = "read-webhooks" := by decide
example : kebabCase "A__b--9x" = "a-b-9x" := by decide
example : kebabCase "größe" = "gr-e" := by decide
example : kebabCase "--" = "" := by decide
example : kebabCase "v2raw" = "v2raw" := by decide
example : kebabCase "x2Y" = "x2-y" := by decide

end Mercury
